import Mathlib

/-!
# external-dns Wrd webhook provider: reconciliation core

A shallow embedding of `provider/wrd.go` (package `provider`) and the
properties of its zone matching, record translation, identity resolution
and apply sequencing.

Conventions of the embedding.

* A Go `string` is a byte sequence.  It is represented by a Lean `String`
  whose characters stand for the bytes (for ASCII text, such as DNS names,
  the two coincide); every operation used by the provider (`len`, `==`,
  `strings.HasSuffix`, `strings.HasPrefix`, `strings.TrimSuffix`,
  `strings.Trim` with the cutset `"`) only compares and counts elements, so
  it is defined on the underlying list `s.data`.
* A Go pointer that may be `nil` is an `Option`; dereferencing `none` is a
  run-time panic, as is indexing an empty slice.
* The remote session (`*nc.NetcupSession`) is an external collaborator.  Its
  replies are given by functions of the calls made so far, and every call
  is recorded, with its reply, in a trace of events.
* The functions of the external-dns library (`plan.Changes.HasChanges`,
  `endpoint.NewEndpointWithTTL`) and the iteration order of a Go map are
  parameters.
-/

set_option autoImplicit false

namespace Wrd

/-! ## Go string primitives -/

/-- Go `len(s)`. -/
def len (s : String) : Nat := s.data.length

/-- Go `strings.HasSuffix(s, suffix)`:
`len(s) >= len(suffix) && s[len(s)-len(suffix):] == suffix`. -/
def HasSuffix (s suffix : String) : Bool :=
  decide (len suffix ≤ len s) && (s.data.drop (len s - len suffix) == suffix.data)

/-- Go `strings.HasPrefix(s, prefix)`:
`len(s) >= len(prefix) && s[:len(prefix)] == prefix`. -/
def HasPrefix (s pre : String) : Bool :=
  decide (len pre ≤ len s) && (s.data.take (len pre) == pre.data)

/-- Go `strings.TrimSuffix(s, suffix)`: `s` without the trailing `suffix`
when it has one, `s` unchanged otherwise. -/
def TrimSuffix (s suffix : String) : String :=
  if HasSuffix s suffix then ⟨s.data.take (len s - len suffix)⟩ else s

/-- Removal of the trailing elements of a list that satisfy `p`. -/
def dropWhileEnd (p : Char → Bool) (l : List Char) : List Char :=
  ((l.reverse).dropWhile p).reverse

/-- Go `strings.Trim(s, cutset)`: `s` without the leading and the trailing
characters that occur in `cutset`. -/
def Trim (s cutset : String) : String :=
  ⟨dropWhileEnd (fun c => cutset.data.contains c)
    (s.data.dropWhile (fun c => cutset.data.contains c))⟩

/-! ## Data model -/

/-- The fields of `endpoint.Endpoint` the provider reads or writes. -/
structure Endpoint where
  DNSName : String
  Targets : List String
  RecordType : String
  RecordTTL : Int
  deriving DecidableEq, Repr

/-- The constant `endpoint.RecordTypeTXT`. -/
def RecordTypeTXT : String := "TXT"

/-- The record type `nc.DnsRecord` of the provider's API (the Go field
`Type` is written `Type_`, `Type` being reserved). -/
structure DnsRecord where
  Id : String
  Hostname : String
  Type_ : String
  Priority : String
  Destination : String
  DeleteRecord : Bool
  State : String
  deriving DecidableEq, Repr

/-- The four categories of `plan.Changes`. -/
structure Changes where
  Create : List Endpoint
  UpdateOld : List Endpoint
  UpdateNew : List Endpoint
  Delete : List Endpoint
  deriving DecidableEq, Repr

/-! ## Zone matcher -/

/-- One iteration of the loop of `endpointZoneName`. -/
def zoneStep (dnsName : String) (matchZoneName zoneName : String) : String :=
  if HasSuffix dnsName zoneName && decide (len zoneName > len matchZoneName) then zoneName
  else matchZoneName

/-- The loop of `endpointZoneName`, started from the current `matchZoneName`. -/
def zoneLoop (dnsName : String) : String → List String → String
  | matchZoneName, [] => matchZoneName
  | matchZoneName, zoneName :: zones =>
    zoneLoop dnsName (zoneStep dnsName matchZoneName zoneName) zones

/-- `endpointZoneName`: the longest zone name that is a suffix of the
endpoint's DNS name, the empty string when there is none. -/
def endpointZoneName (ep : Endpoint) (zones : List String) : String :=
  zoneLoop ep.DNSName "" zones


/-! ## Record identity resolver and record translator -/

/-- The loop of `getIDforRecord` over the existing records. -/
def getIDLoop (recordName target recordType : String) : List DnsRecord → String
  | [] => ""
  | rec :: recs =>
    if recordType = rec.Type_ ∧ target = rec.Destination ∧ rec.Hostname = recordName then rec.Id
    else getIDLoop recordName target recordType recs

/-- `getIDforRecord`: the id of the first existing record with the same
type, destination and hostname, the empty string when there is none.
`recs` is a pointer; ranging over `*recs` panics (`none`) when it is nil. -/
def getIDforRecord (recordName target recordType : String)
    (recs : Option (List DnsRecord)) : Option String :=
  match recs with
  | none => none
  | some l => some (getIDLoop recordName target recordType l)

/-- The record name computed at the head of the loop body of
`convertToNetcupRecord`: the DNS name without the trailing `"." + zoneName`,
replaced by `"@"` when what remains equals the zone name. -/
def recordName (dnsName zoneName : String) : String :=
  let recordName := TrimSuffix dnsName ("." ++ zoneName)
  if recordName = zoneName then "@" else recordName

/-- The destination computed in the loop body of `convertToNetcupRecord`
from `ep.Targets[0]`. -/
def recordTarget (recordType target0 : String) : String :=
  if recordType = RecordTypeTXT ∧ HasPrefix target0 "\"heritage=" = true then Trim target0 "\""
  else target0

/-- The loop body of `convertToNetcupRecord` for one endpoint.  It panics
(`none`) when `ep.Targets` is empty (`ep.Targets[0]`) and when `recs` is nil
(`getIDforRecord`). -/
def convertEndpoint (recs : Option (List DnsRecord)) (zoneName : String) (deleteRecord : Bool)
    (ep : Endpoint) : Option DnsRecord :=
  let name := recordName ep.DNSName zoneName
  match ep.Targets with
  | [] => none
  | target0 :: _ =>
    let target := recordTarget ep.RecordType target0
    match getIDforRecord name target ep.RecordType recs with
    | none => none
    | some id =>
      some { Type_ := ep.RecordType, Hostname := name, Destination := target, Id := id,
             DeleteRecord := deleteRecord, Priority := "", State := "" }

/-- `convertToNetcupRecord`: one record per endpoint, in order; `none` when
the translation of some endpoint panics. -/
def convertToNetcupRecord (recs : Option (List DnsRecord)) : List Endpoint → String → Bool →
    Option (List DnsRecord)
  | [], _, _ => some []
  | ep :: endpoints, zoneName, deleteRecord =>
    match convertEndpoint recs zoneName deleteRecord ep with
    | none => none
    | some r =>
      match convertToNetcupRecord recs endpoints zoneName deleteRecord with
      | none => none
      | some rs => some (r :: rs)

/-! ## The remote session -/

/-- The fields of `nc.NetcupBaseResponseMessage` the provider reads. -/
structure NetcupBaseResponseMessage where
  Status : String
  StatusCode : Int
  deriving DecidableEq, Repr

/-- The constant `nc.StatusError` of the API client. -/
def StatusError : String := "error"

/-- The field of `nc.DnsZoneData` the provider reads. -/
structure DnsZoneData where
  Ttl : String
  deriving DecidableEq, Repr

/-- What `InfoDnsZone` returns: `(*DnsZoneData, error)`. -/
structure ZoneReply where
  zone : Option DnsZoneData
  err : Option String
  deriving DecidableEq, Repr

/-- What `InfoDnsRecords` returns, `(*[]DnsRecord, error)`, and the value of
`session.LastResponse` after the call. -/
structure RecordsReply where
  recs : Option (List DnsRecord)
  err : Option String
  LastResponse : Option NetcupBaseResponseMessage
  deriving DecidableEq, Repr

/-- A call made to the session, with its reply.  The error of
`UpdateDnsRecords` is `none` when the submission succeeded; the result of
`Logout` is discarded by the provider. -/
inductive Event where
  | InfoDnsZone (domain : String) (reply : ZoneReply)
  | InfoDnsRecords (domain : String) (reply : RecordsReply)
  | UpdateDnsRecords (domain : String) (records : List DnsRecord) (err : Option String)
  | Logout
  deriving DecidableEq, Repr

/-- The session `*nc.NetcupSession`: each reply is a function of the events
so far and of the arguments of the call. -/
structure NetcupSession where
  InfoDnsZone : List Event → String → ZoneReply
  InfoDnsRecords : List Event → String → RecordsReply
  UpdateDnsRecords : List Event → String → List DnsRecord → Option String

/-- The functions of the external-dns library the provider calls.
`NewEndpointWithTTL` returns a pointer, which may be nil (`none`). -/
structure Lib where
  HasChanges : Changes → Bool
  NewEndpointWithTTL : String → String → Int → String → Option Endpoint

/-- The provider `WrdProvider`: `session` is a pointer (`ensureLogin` does
not set it), `domainFilter` is `domainFilter.Filters`. -/
structure WrdProvider where
  session : Option NetcupSession
  domainFilter : List String
  dryRun : Int

/-- How a call of the provider ends: a returned value with a nil error, a
returned error, or a run-time panic. -/
inductive Result (α : Type) where
  | ok (value : α)
  | error (err : String)
  | panic
  deriving DecidableEq, Repr

/-- The test `LastResponse != nil && LastResponse.Status == string(nc.StatusError)
&& LastResponse.StatusCode == 5029`. -/
def noRecordsSignal (lastResponse : Option NetcupBaseResponseMessage) : Bool :=
  match lastResponse with
  | none => false
  | some r => decide (r.Status = StatusError) && decide (r.StatusCode = 5029)

/-! ## Records -/

/-- Go `strconv.ParseUint(s, 10, 64)`: a non-empty string of decimal digits
whose value fits in 64 bits. -/
def ParseUint (s : String) : Option Nat :=
  if s.data = [] then none
  else if s.data.all Char.isDigit then
    let n := s.data.foldl (fun acc c => 10 * acc + (c.toNat - 48)) 0
    if n < 2 ^ 64 then some n else none
  else none

/-- The conversion `endpoint.TTL(ttl)` of a `uint64` to the `int64` type `TTL`. -/
def toTTL (ttl : Nat) : Int :=
  if ttl < 2 ^ 63 then (ttl : Int) else (ttl : Int) - 2 ^ 64

/-- The body of the inner loop of `Records`: the endpoint pointer built for
one record of the zone `domain`. -/
def recordEndpoint (lib : Lib) (domain : String) (ttl : Nat) (rec : DnsRecord) :
    Option Endpoint :=
  let name := rec.Hostname ++ "." ++ domain
  let name := if rec.Hostname = "@" then domain else name
  lib.NewEndpointWithTTL name rec.Type_ (toTTL ttl) rec.Destination

/-- The loop of `Records` over `domainFilter.Filters`, with the events so
far and the endpoint pointers collected so far. -/
def recordsLoop (lib : Lib) (s : NetcupSession) :
    List String → List Event → List (Option Endpoint) →
    Result (List (Option Endpoint)) × List Event
  | [], hist, endpoints => (Result.ok endpoints, hist)
  | domain :: rest, hist, endpoints =>
    let zr := s.InfoDnsZone hist domain
    let hist := hist ++ [Event.InfoDnsZone domain zr]
    match zr.err with
    | some err =>
      (Result.error ("unable to query DNS zone info for domain '" ++ domain ++ "': " ++ err), hist)
    | none =>
      match zr.zone with
      | none => (Result.panic, hist)
      | some zone =>
        match ParseUint zone.Ttl with
        | none =>
          (Result.error ("unexpected error: unable to convert '" ++ zone.Ttl ++ "' to uint64"),
            hist)
        | some ttl =>
          let rr := s.InfoDnsRecords hist domain
          let hist := hist ++ [Event.InfoDnsRecords domain rr]
          match rr.err with
          | some err =>
            if noRecordsSignal rr.LastResponse then
              match rr.recs with
              | none => (Result.panic, hist)
              | some recs =>
                recordsLoop lib s rest hist (endpoints ++ recs.map (recordEndpoint lib domain ttl))
            else
              (Result.error ("unable to get DNS records for domain '" ++ domain ++ "': " ++ err),
                hist)
          | none =>
            match rr.recs with
            | none => (Result.panic, hist)
            | some recs =>
              recordsLoop lib s rest hist (endpoints ++ recs.map (recordEndpoint lib domain ttl))

/-- The outcome of `Records`: what it returns and the calls it made. -/
structure RecordsOutcome where
  result : Result (List Endpoint)
  events : List Event

/-- The loop at the end of `Records` that logs `endpointItem.String()` for
every collected endpoint: the call panics (`none`) on a nil endpoint;
otherwise the endpoints are returned. -/
def logEndpoints : List (Option Endpoint) → Option (List Endpoint)
  | [] => some []
  | none :: _ => none
  | some ep :: endpoints =>
    match logEndpoints endpoints with
    | none => none
    | some eps => some (ep :: eps)

/-- `WrdProvider.Records`, given the value of the package variable
`allEndpoints`.  Outside dry run the collected endpoints are logged, which
panics on a nil endpoint, and the deferred `Logout` ends the trace; with a
nil session every call panics. -/
def Records (lib : Lib) (p : WrdProvider) (allEndpoints : List Endpoint) : RecordsOutcome :=
  if p.dryRun > 0 then ⟨Result.ok allEndpoints, []⟩
  else
    match p.session with
    | none => ⟨Result.panic, []⟩
    | some s =>
      let r := recordsLoop lib s p.domainFilter [] []
      match r.1 with
      | Result.ok endpoints =>
        match logEndpoints endpoints with
        | none => ⟨Result.panic, r.2 ++ [Event.Logout]⟩
        | some eps => ⟨Result.ok eps, r.2 ++ [Event.Logout]⟩
      | Result.error err => ⟨Result.error err, r.2 ++ [Event.Logout]⟩
      | Result.panic => ⟨Result.panic, r.2 ++ [Event.Logout]⟩

/-! ## ApplyChanges -/

/-- The Go map `map[string]*plan.Changes`: the entry of a key, `none` when
the key is absent. -/
abbrev ZoneMap := String → Option Changes

/-- The assignment `m[zoneName] = c`. -/
def ZoneMap.set (m : ZoneMap) (zoneName : String) (c : Changes) : ZoneMap :=
  fun k => if k = zoneName then some c else m k

/-- The empty batch `&plan.Changes{}`. -/
def emptyChanges : Changes := ⟨[], [], [], []⟩

/-- The loop that seeds `perZoneChanges` with an empty batch per zone. -/
def seedZones : List String → ZoneMap → ZoneMap
  | [], m => m
  | zoneName :: zones, m => seedZones zones (m.set zoneName emptyChanges)

/-- The assignment `c.Create = append(c.Create, ep)`. -/
def addCreate (c : Changes) (ep : Endpoint) : Changes := { c with Create := c.Create ++ [ep] }

/-- The assignment `c.UpdateOld = append(c.UpdateOld, ep)`. -/
def addUpdateOld (c : Changes) (ep : Endpoint) : Changes :=
  { c with UpdateOld := c.UpdateOld ++ [ep] }

/-- The assignment `c.UpdateNew = append(c.UpdateNew, ep)`. -/
def addUpdateNew (c : Changes) (ep : Endpoint) : Changes :=
  { c with UpdateNew := c.UpdateNew ++ [ep] }

/-- The assignment `c.Delete = append(c.Delete, ep)`. -/
def addDelete (c : Changes) (ep : Endpoint) : Changes := { c with Delete := c.Delete ++ [ep] }

/-- The loops over `changes.UpdateOld`, `changes.UpdateNew` and
`changes.Delete`: an endpoint with no zone is skipped, any other is appended
to the category of its zone.  `perZoneChanges[zoneName]` of an absent key is
a nil pointer and the assignment to its field panics (`none`). -/
def planLoop (zones : List String) (add : Changes → Endpoint → Changes) :
    List Endpoint → ZoneMap → Option ZoneMap
  | [], m => some m
  | ep :: eps, m =>
    let zoneName := endpointZoneName ep zones
    if zoneName = "" then planLoop zones add eps m
    else
      match m zoneName with
      | none => none
      | some c => planLoop zones add eps (m.set zoneName (add c ep))

/-- The loop over `changes.Create`, which also appends every endpoint that
has a zone to the package variable `allEndpoints`. -/
def planCreate (zones : List String) :
    List Endpoint → ZoneMap → List Endpoint → Option (ZoneMap × List Endpoint)
  | [], m, allEndpoints => some (m, allEndpoints)
  | ep :: eps, m, allEndpoints =>
    let zoneName := endpointZoneName ep zones
    if zoneName = "" then planCreate zones eps m allEndpoints
    else
      match m zoneName with
      | none => none
      | some c => planCreate zones eps (m.set zoneName (addCreate c ep)) (allEndpoints ++ [ep])

/-- The partition built by `ApplyChanges`: `allEndpoints` is reset, the map
is seeded, then the four categories are distributed in the order Create,
UpdateOld, UpdateNew, Delete.  The result is the map `perZoneChanges` and
the new value of `allEndpoints`. -/
def perZoneChanges (zones : List String) (changes : Changes) :
    Option (ZoneMap × List Endpoint) :=
  match planCreate zones changes.Create (seedZones zones (fun _ => none)) [] with
  | none => none
  | some (m1, allEndpoints) =>
    match planLoop zones addUpdateOld changes.UpdateOld m1 with
    | none => none
    | some m2 =>
      match planLoop zones addUpdateNew changes.UpdateNew m2 with
      | none => none
      | some m3 =>
        match planLoop zones addDelete changes.Delete m3 with
        | none => none
        | some m4 => some (m4, allEndpoints)

/-- The four submissions of one zone, in the order of the source:
UpdateOld, Delete, Create, UpdateNew, each returning at once on an error. -/
def submitZone (s : NetcupSession) (zoneName : String)
    (updateOld delete create updateNew : List DnsRecord) (hist : List Event) :
    Result Unit × List Event :=
  let e1 := s.UpdateDnsRecords hist zoneName updateOld
  let hist := hist ++ [Event.UpdateDnsRecords zoneName updateOld e1]
  match e1 with
  | some err => (Result.error err, hist)
  | none =>
    let e2 := s.UpdateDnsRecords hist zoneName delete
    let hist := hist ++ [Event.UpdateDnsRecords zoneName delete e2]
    match e2 with
    | some err => (Result.error err, hist)
    | none =>
      let e3 := s.UpdateDnsRecords hist zoneName create
      let hist := hist ++ [Event.UpdateDnsRecords zoneName create e3]
      match e3 with
      | some err => (Result.error err, hist)
      | none =>
        let e4 := s.UpdateDnsRecords hist zoneName updateNew
        let hist := hist ++ [Event.UpdateDnsRecords zoneName updateNew e4]
        match e4 with
        | some err => (Result.error err, hist)
        | none => (Result.ok (), hist)

/-- The body of the loop over `perZoneChanges` for one zone: the records are
read (an error is only logged), the four categories are translated in the
order of the struct literal (Create, UpdateNew, UpdateOld, Delete), then
submitted. -/
def applyZone (s : NetcupSession) (zoneName : String) (c : Changes) (hist : List Event) :
    Result Unit × List Event :=
  let rr := s.InfoDnsRecords hist zoneName
  let hist := hist ++ [Event.InfoDnsRecords zoneName rr]
  match convertToNetcupRecord rr.recs c.Create zoneName false with
  | none => (Result.panic, hist)
  | some create =>
    match convertToNetcupRecord rr.recs c.UpdateNew zoneName false with
    | none => (Result.panic, hist)
    | some updateNew =>
      match convertToNetcupRecord rr.recs c.UpdateOld zoneName true with
      | none => (Result.panic, hist)
      | some updateOld =>
        match convertToNetcupRecord rr.recs c.Delete zoneName true with
        | none => (Result.panic, hist)
        | some delete => submitZone s zoneName updateOld delete create updateNew hist

/-- The loop over `perZoneChanges`; `order` lists the keys of the map in the
order in which the Go runtime yields them. -/
def applyZones (s : NetcupSession) (perZone : ZoneMap) :
    List String → List Event → Result Unit × List Event
  | [], hist => (Result.ok (), hist)
  | zoneName :: rest, hist =>
    match perZone zoneName with
    | none => (Result.panic, hist)
    | some c =>
      let r := applyZone s zoneName c hist
      match r.1 with
      | Result.ok _ => applyZones s perZone rest r.2
      | Result.error err => (Result.error err, r.2)
      | Result.panic => (Result.panic, r.2)

/-- The outcome of `ApplyChanges`: what it returns, the calls it made and
the value it leaves in the package variable `allEndpoints`. -/
structure ApplyOutcome where
  result : Result Unit
  events : List Event
  allEndpoints : List Endpoint

/-- `WrdProvider.ApplyChanges`, given the value of the package variable
`allEndpoints` and the iteration order `order` of the map `perZoneChanges`.
Outside dry run the deferred `Logout` ends the trace; with a nil session
every call panics.  The partition itself never panics
(`perZoneChanges_spec`), so its `none` branch is not reached. -/
def ApplyChanges (lib : Lib) (order : List String) (p : WrdProvider)
    (allEndpoints : List Endpoint) (changes : Changes) : ApplyOutcome :=
  if lib.HasChanges changes = false then ⟨Result.ok (), [], allEndpoints⟩
  else
    match perZoneChanges p.domainFilter changes with
    | none => ⟨Result.panic, [], []⟩
    | some (perZone, planned) =>
      if p.dryRun > 0 then ⟨Result.ok (), [], planned⟩
      else
        match p.session with
        | none => ⟨Result.panic, [], planned⟩
        | some s =>
          let r := applyZones s perZone order []
          ⟨r.1, r.2 ++ [Event.Logout], planned⟩

/-- The iteration order `order` enumerates the keys of the map seeded from
`zones`: every zone name once. -/
abbrev IsKeyOrder (order zones : List String) : Prop :=
  order.Nodup ∧ (∀ z ∈ order, z ∈ zones) ∧ (∀ z ∈ zones, z ∈ order)

/-- The initial value of the package variable `allEndpoints` (a nil slice). -/
def initialAllEndpoints : List Endpoint := []

/-- The test the planning loops make on an endpoint for the zone `z`: its
zone name is `z` and is not the empty string (an endpoint whose zone name is
empty matches no zone and is skipped). -/
def matchesZone (zones : List String) (z : String) (ep : Endpoint) : Bool :=
  decide (endpointZoneName ep zones = z ∧ z ≠ "")

/-- An endpoint attached by plain suffix to `example.com` without a dot
before the zone name. -/
def epNoDot : Endpoint := ⟨"wwwexample.com", ["1.2.3.4"], "A", 0⟩

/-- The endpoint `www.example.com A 1.2.3.4`. -/
def epWww : Endpoint := ⟨"www.example.com", ["1.2.3.4"], "A", 0⟩

/-- The existing record `id 42, hostname www, type A, destination 1.2.3.4`. -/
def recWww42 : DnsRecord := ⟨"42", "www", "A", "", "1.2.3.4", false, ""⟩

/-- The batch of the zone `z` in the partition built by `ApplyChanges`:
`perZoneChanges[z]`, `none` when the key is absent. -/
def zoneBatch (zones : List String) (batch : Changes) (z : String) : Option Changes :=
  (perZoneChanges zones batch).bind (fun r => r.1 z)

/-- A call that succeeded: no error was returned and, for the two reads, a
result was returned with it (a non-nil pointer). -/
def Event.succeeded : Event → Bool
  | Event.InfoDnsZone _ reply => reply.err.isNone && reply.zone.isSome
  | Event.InfoDnsRecords _ reply => reply.err.isNone && reply.recs.isSome
  | Event.UpdateDnsRecords _ _ err => err.isNone
  | Event.Logout => true

/-- A submission (`UpdateDnsRecords`) that returned an error. -/
def Event.failedSubmission : Event → Bool
  | Event.UpdateDnsRecords _ _ (some _) => true
  | _ => false

/-- The calls of one zone in a run in which the four submissions succeed:
the read, then the translated UpdateOld, Delete, Create and UpdateNew
records of the batch `c`, translated against the records just read. -/
def ZoneBlock (z : String) (c : Changes) (block : List Event) : Prop :=
  ∃ (reply : RecordsReply) (updateOld delete create updateNew : List DnsRecord),
    block = [Event.InfoDnsRecords z reply, Event.UpdateDnsRecords z updateOld none,
      Event.UpdateDnsRecords z delete none, Event.UpdateDnsRecords z create none,
      Event.UpdateDnsRecords z updateNew none] ∧
    convertToNetcupRecord reply.recs c.UpdateOld z true = some updateOld ∧
    convertToNetcupRecord reply.recs c.Delete z true = some delete ∧
    convertToNetcupRecord reply.recs c.Create z false = some create ∧
    convertToNetcupRecord reply.recs c.UpdateNew z false = some updateNew ∧
    (∀ r ∈ updateOld, r.DeleteRecord = true) ∧ (∀ r ∈ delete, r.DeleteRecord = true) ∧
    (∀ r ∈ create, r.DeleteRecord = false) ∧ (∀ r ∈ updateNew, r.DeleteRecord = false)

/-- An instance of the library functions for the examples: a batch has
changes when one of its categories is non-empty, and the constructor stores
its arguments. -/
def exampleLib : Lib :=
  { HasChanges := fun c =>
      !(c.Create.isEmpty && c.UpdateOld.isEmpty && c.UpdateNew.isEmpty && c.Delete.isEmpty),
    NewEndpointWithTTL := fun name recordType ttl target =>
      some ⟨name, [target], recordType, ttl⟩ }

/-- A session whose every call succeeds: the TTL of a zone is `300`, its
records are `recWww42`, every submission is accepted. -/
def sessionOk : NetcupSession :=
  { InfoDnsZone := fun _ _ => ⟨some ⟨"300"⟩, none⟩,
    InfoDnsRecords := fun _ _ => ⟨some [recWww42], none, none⟩,
    UpdateDnsRecords := fun _ _ _ => none }

/-- A provider for the zone `example.com` over the session `s`. -/
def providerFor (s : NetcupSession) (dryRun : Int) : WrdProvider :=
  { session := some s, domainFilter := ["example.com"], dryRun := dryRun }

/-- The batch that deletes `www.example.com A 1.2.3.4`. -/
def batchDeleteWww : Changes := ⟨[], [], [], [epWww]⟩

/-- The batch that creates `www.example.com A 1.2.3.4`. -/
def batchCreateWww : Changes := ⟨[epWww], [], [], []⟩

/-- The shape of the events a loop of the apply sequencer adds to `hist`:
either the loop did not return an error and no submission among the new
events failed, or the last new event is a failed submission, the loop
returned its error, and no earlier new submission failed. -/
def FailFast (hist : List Event) (r : Result Unit × List Event) : Prop :=
  ∃ new, r.2 = hist ++ new ∧
    (((∀ e, r.1 ≠ Result.error e) ∧ ∀ ev ∈ new, Event.failedSubmission ev = false) ∨
      ∃ pre z rs e, new = pre ++ [Event.UpdateDnsRecords z rs (some e)] ∧
        r.1 = Result.error e ∧ ∀ ev ∈ pre, Event.failedSubmission ev = false)

/-- A session whose second submission of a run is refused. -/
def sessionFailSecond : NetcupSession :=
  { InfoDnsZone := fun _ _ => ⟨some ⟨"300"⟩, none⟩,
    InfoDnsRecords := fun _ _ => ⟨some [recWww42], none, none⟩,
    UpdateDnsRecords := fun hist _ _ => if hist.length = 2 then some "quota exceeded" else none }

/-- A provider for the zones `example.com` and `example.org` over the
session `s`, outside dry run. -/
def providerTwoZones (s : NetcupSession) : WrdProvider :=
  { session := some s, domainFilter := ["example.com", "example.org"], dryRun := 0 }

/-- A session whose record listing fails: an error and a nil record list,
with no structured response. -/
def sessionReadFails : NetcupSession :=
  { InfoDnsZone := fun _ _ => ⟨some ⟨"300"⟩, none⟩,
    InfoDnsRecords := fun _ _ => ⟨none, some "connection refused", none⟩,
    UpdateDnsRecords := fun _ _ _ => none }

/-- A session whose record listing returns the "no records" signal: an
error, a nil record list, and the response status `error` with code 5029. -/
def sessionNoRecords : NetcupSession :=
  { InfoDnsZone := fun _ _ => ⟨some ⟨"300"⟩, none⟩,
    InfoDnsRecords := fun _ _ => ⟨none, some "no records", some ⟨"error", 5029⟩⟩,
    UpdateDnsRecords := fun _ _ _ => none }

/-- The name computed in the inner loop of `Records` for a record of the
zone `domain`: `hostname + "." + domain`, replaced by `domain` when the
hostname is `"@"`. -/
def recordDNSName (domain : String) (rec : DnsRecord) : String :=
  let name := rec.Hostname ++ "." ++ domain
  if rec.Hostname = "@" then domain else name

/-- The apex endpoint `example.com A 1.2.3.4`. -/
def epApex : Endpoint := ⟨"example.com", ["1.2.3.4"], "A", 0⟩

/-- A TXT endpoint whose heritage target holds a quote character inside. -/
def epHeritageInner : Endpoint :=
  ⟨"www.example.com", ["\"heritage=external-dns,owner=\"me\",kind=a\""], "TXT", 0⟩

/-- A TXT endpoint with a quoted heritage target. -/
def epHeritage : Endpoint :=
  ⟨"www.example.com", ["\"heritage=external-dns,external-dns/owner=default\""], "TXT", 0⟩

/-- A TXT endpoint whose quoted target is not a heritage target. -/
def epTxtPlain : Endpoint := ⟨"www.example.com", ["\"v=spf1 -all\""], "TXT", 0⟩

/-- The quote character `"` (code point 34), the cutset of the `Trim` call. -/
def quoteChar : Char := Char.ofNat 34

/-- An endpoint of a zone outside the allow-list `example.com`. -/
def epForeign : Endpoint := ⟨"www.example.org", ["5.6.7.8"], "A", 0⟩

/-- A batch with a matched and an unmatched Create endpoint and endpoints in
the three other categories. -/
def batchMixed : Changes := ⟨[epWww, epForeign], [epApex], [epApex], [epNoDot]⟩

/-- A record of the zone `example.com` whose hostname is the zone name (the
name `example.com.example.com`). -/
def recZoneNamed : DnsRecord := ⟨"7", "example.com", "A", "", "1.2.3.4", false, ""⟩

/-- The error with which `Records` returns right after a call, when the
reply makes it return: a zone-info error, a TTL that `ParseUint` refuses, or
a listing error that is not the "no records" signal. -/
def rejection : Event → Option String
  | Event.InfoDnsZone domain reply =>
    match reply.err with
    | some err => some ("unable to query DNS zone info for domain '" ++ domain ++ "': " ++ err)
    | none =>
      match reply.zone with
      | none => none
      | some zone =>
        match ParseUint zone.Ttl with
        | none => some ("unexpected error: unable to convert '" ++ zone.Ttl ++ "' to uint64")
        | some _ => none
  | Event.InfoDnsRecords domain reply =>
    match reply.err with
    | some err =>
      if noRecordsSignal reply.LastResponse then none
      else some ("unable to get DNS records for domain '" ++ domain ++ "': " ++ err)
    | none => none
  | _ => none

/-- The apex record `id 1, @, A, 1.2.3.4` of a zone. -/
def recApex1 : DnsRecord := ⟨"1", "@", "A", "", "1.2.3.4", false, ""⟩

/-- A session whose zone-info call fails for `example.org` only. -/
def sessionZoneInfoFails : NetcupSession :=
  { InfoDnsZone := fun _ d =>
      if d = "example.org" then ⟨none, some "timeout"⟩ else ⟨some ⟨"300"⟩, none⟩,
    InfoDnsRecords := fun _ _ => ⟨some [recWww42], none, none⟩,
    UpdateDnsRecords := fun _ _ _ => none }

/-- A session whose zone `example.org` has the TTL string `5m`. -/
def sessionBadTtl : NetcupSession :=
  { InfoDnsZone := fun _ d =>
      if d = "example.org" then ⟨some ⟨"5m"⟩, none⟩ else ⟨some ⟨"300"⟩, none⟩,
    InfoDnsRecords := fun _ _ => ⟨some [recWww42], none, none⟩,
    UpdateDnsRecords := fun _ _ _ => none }

/-- A session whose record listing of `example.org` fails with the message
`no records` but the response code 4013. -/
def sessionListingFails : NetcupSession :=
  { InfoDnsZone := fun _ _ => ⟨some ⟨"300"⟩, none⟩,
    InfoDnsRecords := fun _ d =>
      if d = "example.org" then ⟨none, some "no records", some ⟨"error", 4013⟩⟩
      else ⟨some [recWww42], none, none⟩,
    UpdateDnsRecords := fun _ _ _ => none }

/-- The TTL string of a zone-info reply is accepted by `ParseUint`. -/
def Event.ttlParses : Event → Bool
  | Event.InfoDnsZone _ reply =>
    match reply.zone with
    | some zone => (ParseUint zone.Ttl).isSome
    | none => true
  | _ => true

/-- The calls of one zone in an export in which both calls succeed and the
TTL parses, and the endpoint pointers the zone contributes: one per listed
record, in listing order, returned by `NewEndpointWithTTL` for the name
`hostname + "." + zone` (the zone name when the hostname is `"@"`), the type
of the record, the parsed TTL converted to `endpoint.TTL`, and the
destination of the record. -/
def ZoneExport (lib : Lib) (z : String) (block : List Event) (part : List (Option Endpoint)) :
    Prop :=
  ∃ (zone : DnsZoneData) (ttl : Nat) (recs : List DnsRecord)
      (last : Option NetcupBaseResponseMessage),
    block = [Event.InfoDnsZone z ⟨some zone, none⟩,
      Event.InfoDnsRecords z ⟨some recs, none, last⟩] ∧
    ParseUint zone.Ttl = some ttl ∧
    part = recs.map (fun r =>
      lib.NewEndpointWithTTL (if r.Hostname = "@" then z else r.Hostname ++ "." ++ z)
        r.Type_ (toTTL ttl) r.Destination)

/-- A session whose zones have the TTL string `9223372036854775808`, two to
the power 63. -/
def sessionHugeTtl : NetcupSession :=
  { InfoDnsZone := fun _ _ => ⟨some ⟨"9223372036854775808"⟩, none⟩,
    InfoDnsRecords := fun _ _ => ⟨some [recWww42], none, none⟩,
    UpdateDnsRecords := fun _ _ _ => none }

/-- Whether a label of a name, the labels being separated by dots (code
point 46), is longer than 63 bytes; `n` is the length of the label being
read. -/
def labelTooLong : List Char → Nat → Bool
  | [], n => decide (n > 63)
  | c :: cs, n =>
    if c = Char.ofNat 46 then decide (n > 63) || labelTooLong cs 0 else labelTooLong cs (n + 1)

/-- An instance of the library functions whose constructor follows the one
of external-dns on the names and targets of A and CNAME records: nil when a
label of the name is longer than 63 bytes, otherwise the endpoint with the
trailing dot removed from the name and from the target. -/
def extDnsLib : Lib :=
  { HasChanges := exampleLib.HasChanges,
    NewEndpointWithTTL := fun name recordType ttl target =>
      if labelTooLong name.data 0 then none
      else some ⟨TrimSuffix name ".", [TrimSuffix target "."], recordType, ttl⟩ }

/-- A session whose zones hold one A record with a hostname of 64 bytes. -/
def sessionLongLabel : NetcupSession :=
  { InfoDnsZone := fun _ _ => ⟨some ⟨"300"⟩, none⟩,
    InfoDnsRecords := fun _ _ =>
      ⟨some [⟨"9", "aaaaaaaaaaaaaaaaaaaaaaaaaaaaaaaaaaaaaaaaaaaaaaaaaaaaaaaaaaaaaaaa", "A", "", "1.2.3.4", false, ""⟩], none, none⟩,
    UpdateDnsRecords := fun _ _ _ => none }

/-- A session whose zones hold one CNAME record whose destination ends with
a dot. -/
def sessionDotTarget : NetcupSession :=
  { InfoDnsZone := fun _ _ => ⟨some ⟨"300"⟩, none⟩,
    InfoDnsRecords := fun _ _ =>
      ⟨some [⟨"3", "www", "CNAME", "", "target.example.net.", false, ""⟩], none, none⟩,
    UpdateDnsRecords := fun _ _ _ => none }

/-- The calls of one zone in an export in which both calls succeed and the
TTL parses, and the endpoints of the zone as the export is meant to return
them: one per listed record, in listing order, with the name
`hostname + "." + zone` (the zone name when the hostname is `"@"`), the type
of the record, its destination as single target, and the parsed TTL
converted to `endpoint.TTL`. -/
def ZoneEndpoints (z : String) (block : List Event) (part : List Endpoint) : Prop :=
  ∃ (zone : DnsZoneData) (ttl : Nat) (recs : List DnsRecord)
      (last : Option NetcupBaseResponseMessage),
    block = [Event.InfoDnsZone z ⟨some zone, none⟩,
      Event.InfoDnsRecords z ⟨some recs, none, last⟩] ∧
    ParseUint zone.Ttl = some ttl ∧
    part = recs.map (fun r =>
      ⟨if r.Hostname = "@" then z else r.Hostname ++ "." ++ z, [r.Destination], r.Type_,
        toTTL ttl⟩)

/-! ## Lemmas on the string primitives -/

theorem hasSuffix_iff (s t : String) : HasSuffix s t = true ↔ t.data <:+ s.data := by
  unfold HasSuffix len
  constructor
  · intro h
    simp only [Bool.and_eq_true, decide_eq_true_eq, beq_iff_eq] at h
    rw [← h.2]
    exact List.drop_suffix _ _
  · intro h
    simp only [Bool.and_eq_true, decide_eq_true_eq, beq_iff_eq]
    exact ⟨h.length_le, (List.suffix_iff_eq_drop.mp h).symm⟩

theorem hasSuffix_empty (s : String) : HasSuffix s "" = true := by
  rw [hasSuffix_iff]
  exact List.nil_suffix

theorem len_eq_zero (s : String) (h : len s = 0) : s = "" := by
  apply String.ext
  exact List.length_eq_zero.mp h

theorem suffix_same_len (n a b : String) (ha : HasSuffix n a = true) (hb : HasSuffix n b = true)
    (hl : len a = len b) : a = b := by
  rw [hasSuffix_iff] at ha hb
  apply String.ext
  have hab : a.data <:+ b.data := List.suffix_of_suffix_length_le ha hb (le_of_eq hl)
  exact hab.eq_of_length hl

/-! ## Zone matcher -/

theorem zoneLoop_spec (n : String) (zs : List String) :
    ∀ acc : String,
      (zoneLoop n acc zs = acc ∨ (zoneLoop n acc zs ∈ zs ∧ HasSuffix n (zoneLoop n acc zs) = true)) ∧
      len acc ≤ len (zoneLoop n acc zs) ∧
      (∀ z ∈ zs, HasSuffix n z = true → len z ≤ len (zoneLoop n acc zs)) := by
  induction zs with
  | nil => intro acc; simp [zoneLoop]
  | cons z zs ih =>
    intro acc
    obtain ⟨h1, h2, h3⟩ := ih (zoneStep n acc z)
    simp only [zoneLoop]
    by_cases hc : (HasSuffix n z && decide (len z > len acc)) = true
    · have hs : zoneStep n acc z = z := by simp [zoneStep, hc]
      rw [hs] at h1 h2 h3 ⊢
      simp only [Bool.and_eq_true, decide_eq_true_eq] at hc
      refine ⟨?_, by omega, ?_⟩
      · rcases h1 with h1 | h1
        · right; rw [h1]; exact ⟨List.mem_cons_self _ _, hc.1⟩
        · right; exact ⟨List.mem_cons_of_mem _ h1.1, h1.2⟩
      · intro z' hz' hsuf
        rcases List.mem_cons.mp hz' with rfl | hmem
        · exact h2
        · exact h3 z' hmem hsuf
    · have hs : zoneStep n acc z = acc := by simp [zoneStep, hc]
      rw [hs] at h1 h2 h3 ⊢
      refine ⟨?_, h2, ?_⟩
      · rcases h1 with h1 | h1
        · left; exact h1
        · right; exact ⟨List.mem_cons_of_mem _ h1.1, h1.2⟩
      · intro z' hz' hsuf
        rcases List.mem_cons.mp hz' with rfl | hmem
        · simp only [Bool.and_eq_true, decide_eq_true_eq, not_and, not_lt] at hc
          have := hc hsuf
          omega
        · exact h3 z' hmem hsuf

/-- The result of `endpointZoneName` is the empty string or a zone of the
list that is a suffix of the name. -/
theorem endpointZoneName_cases (ep : Endpoint) (zones : List String) :
    endpointZoneName ep zones = "" ∨
      (endpointZoneName ep zones ∈ zones ∧ HasSuffix ep.DNSName (endpointZoneName ep zones) = true) :=
  (zoneLoop_spec ep.DNSName zones "").1

theorem endpointZoneName_mem (ep : Endpoint) (zones : List String)
    (h : endpointZoneName ep zones ≠ "") : endpointZoneName ep zones ∈ zones := by
  rcases endpointZoneName_cases ep zones with h1 | h1
  · exact absurd h1 h
  · exact h1.1

theorem endpointZoneName_suffix (ep : Endpoint) (zones : List String) :
    HasSuffix ep.DNSName (endpointZoneName ep zones) = true := by
  rcases endpointZoneName_cases ep zones with h1 | h1
  · rw [h1]; exact hasSuffix_empty _
  · exact h1.2

/-- C1: `endpointZoneName(n, Z)` returns a zone of `Z` that is a suffix of
`n`, every other zone of `Z` that is a suffix of `n` is strictly shorter, it
is the only zone of `Z` that is a suffix of `n` of greatest length, and the
result is the empty string when no zone of `Z` is a suffix of `n`. -/
theorem endpointZoneName_longest_suffix (n : Endpoint) (Z : List String) :
    ((∃ z ∈ Z, HasSuffix n.DNSName z = true) →
      endpointZoneName n Z ∈ Z ∧
      HasSuffix n.DNSName (endpointZoneName n Z) = true ∧
      (∀ z ∈ Z, HasSuffix n.DNSName z = true → z ≠ endpointZoneName n Z →
        len z < len (endpointZoneName n Z)) ∧
      (∀ z ∈ Z, HasSuffix n.DNSName z = true →
        (∀ z' ∈ Z, HasSuffix n.DNSName z' = true → len z' ≤ len z) →
        z = endpointZoneName n Z)) ∧
    ((¬ ∃ z ∈ Z, HasSuffix n.DNSName z = true) → endpointZoneName n Z = "") := by
  have hmax : ∀ z ∈ Z, HasSuffix n.DNSName z = true → len z ≤ len (endpointZoneName n Z) :=
    (zoneLoop_spec n.DNSName Z "").2.2
  have hsuf := endpointZoneName_suffix n Z
  constructor
  · rintro ⟨z0, hz0, hs0⟩
    have hmem : endpointZoneName n Z ∈ Z := by
      by_cases he : endpointZoneName n Z = ""
      · have h0 : len z0 = 0 := by
          have := hmax z0 hz0 hs0
          rw [he] at this
          exact Nat.le_zero.mp this
        rw [he, ← len_eq_zero z0 h0]
        exact hz0
      · exact endpointZoneName_mem n Z he
    refine ⟨hmem, hsuf, ?_, ?_⟩
    · intro z hz hs hne
      have hle := hmax z hz hs
      rcases Nat.lt_or_eq_of_le hle with hlt | heq
      · exact hlt
      · exact absurd (suffix_same_len _ _ _ hs hsuf heq) hne
    · intro z hz hs hbest
      have h1 := hmax z hz hs
      have h2 := hbest _ hmem hsuf
      exact suffix_same_len _ _ _ hs hsuf (le_antisymm h1 h2)
  · intro hno
    rcases endpointZoneName_cases n Z with h1 | h1
    · exact h1
    · exact absurd ⟨_, h1.1, h1.2⟩ hno

/-! ## Record identity resolver -/

/-- C4: on a sequence of existing records `getIDforRecord` returns the id of
the first record whose type, destination and hostname all equal the
candidate's, returns the empty string when no record has them, and a
non-empty result is always the id of a record with the candidate's triple. -/
theorem getIDforRecord_first_match (hostname target recordType : String)
    (existing : List DnsRecord) :
    (∀ (pre : List DnsRecord) (r : DnsRecord) (post : List DnsRecord),
      existing = pre ++ r :: post →
      (recordType = r.Type_ ∧ target = r.Destination ∧ r.Hostname = hostname) →
      (∀ r' ∈ pre, ¬ (recordType = r'.Type_ ∧ target = r'.Destination ∧ r'.Hostname = hostname)) →
      getIDforRecord hostname target recordType (some existing) = some r.Id) ∧
    ((∀ r ∈ existing,
        ¬ (recordType = r.Type_ ∧ target = r.Destination ∧ r.Hostname = hostname)) →
      getIDforRecord hostname target recordType (some existing) = some "") ∧
    (∀ id, getIDforRecord hostname target recordType (some existing) = some id → id ≠ "" →
      ∃ r ∈ existing,
        (recordType = r.Type_ ∧ target = r.Destination ∧ r.Hostname = hostname) ∧ r.Id = id) := by
  simp only [getIDforRecord, Option.some.injEq]
  induction existing with
  | nil =>
    refine ⟨?_, ?_, ?_⟩
    · intro pre r post h; simp at h
    · intro _; rfl
    · intro id h hne; exact absurd h.symm hne
  | cons e es ih =>
    obtain ⟨ih1, ih2, ih3⟩ := ih
    by_cases hm : recordType = e.Type_ ∧ target = e.Destination ∧ e.Hostname = hostname
    · have hv : getIDLoop hostname target recordType (e :: es) = e.Id := by
        simp only [getIDLoop, if_pos hm]
      refine ⟨?_, ?_, ?_⟩
      · intro pre r post h hr hpre
        cases pre with
        | nil =>
          simp only [List.nil_append, List.cons.injEq] at h
          rw [hv, h.1]
        | cons a pre =>
          simp only [List.cons_append, List.cons.injEq] at h
          exact absurd (h.1 ▸ hm) (hpre a (List.mem_cons_self _ _))
      · intro hnone
        exact absurd hm (hnone e (List.mem_cons_self _ _))
      · intro id h _
        exact ⟨e, List.mem_cons_self _ _, hm, by rw [← h, hv]⟩
    · have hv : getIDLoop hostname target recordType (e :: es)
          = getIDLoop hostname target recordType es := by
        simp only [getIDLoop, if_neg hm]
      rw [hv]
      refine ⟨?_, ?_, ?_⟩
      · intro pre r post h hr hpre
        cases pre with
        | nil =>
          simp only [List.nil_append, List.cons.injEq] at h
          exact absurd (h.1 ▸ hr) hm
        | cons a pre =>
          simp only [List.cons_append, List.cons.injEq] at h
          exact ih1 pre r post h.2 hr (fun r' hr' => hpre r' (List.mem_cons_of_mem _ hr'))
      · intro hnone
        exact ih2 (fun r hr => hnone r (List.mem_cons_of_mem _ hr))
      · intro id h hne
        obtain ⟨r, hr, hmr, hid⟩ := ih3 id h hne
        exact ⟨r, List.mem_cons_of_mem _ hr, hmr, hid⟩

/-! ## Change partitioner -/

theorem seedZones_spec (zones : List String) :
    ∀ m : ZoneMap, (∀ z ∈ zones, seedZones zones m z = some emptyChanges) ∧
      (∀ z, z ∉ zones → seedZones zones m z = m z) := by
  induction zones with
  | nil => intro m; simp [seedZones]
  | cons z0 zs ih =>
    intro m
    obtain ⟨h1, h2⟩ := ih (m.set z0 emptyChanges)
    simp only [seedZones]
    constructor
    · intro z hz
      by_cases hmem : z ∈ zs
      · exact h1 z hmem
      · rcases List.mem_cons.mp hz with rfl | h
        · rw [h2 z hmem]; simp [ZoneMap.set]
        · exact absurd h hmem
    · intro z hz
      simp only [List.mem_cons, not_or] at hz
      rw [h2 z hz.2]
      simp [ZoneMap.set, hz.1]

theorem planLoop_spec (zones : List String) (add : Changes → Endpoint → Changes)
    (eps : List Endpoint) :
    ∀ m : ZoneMap, (∀ z ∈ zones, ∃ c, m z = some c) →
      ∃ m', planLoop zones add eps m = some m' ∧
        ∀ z, m' z = (m z).map (fun c => (eps.filter (matchesZone zones z)).foldl add c) := by
  induction eps with
  | nil =>
    intro m _
    refine ⟨m, rfl, ?_⟩
    intro z
    cases m z <;> simp
  | cons ep eps ih =>
    intro m hm
    by_cases hz : endpointZoneName ep zones = ""
    · obtain ⟨m', h1, h2⟩ := ih m hm
      refine ⟨m', by simp only [planLoop, hz, if_true]; exact h1, ?_⟩
      intro z
      have hf : matchesZone zones z ep = false := by
        simp only [matchesZone, decide_eq_false_iff_not, not_and, not_not]
        intro h; rw [← h, hz]
      rw [h2 z, List.filter_cons_of_neg (by simp [hf])]
    · obtain ⟨c, hc⟩ := hm _ (endpointZoneName_mem ep zones hz)
      have hm' : ∀ z ∈ zones, ∃ c', (m.set (endpointZoneName ep zones) (add c ep)) z = some c' := by
        intro z hzm
        by_cases he : z = endpointZoneName ep zones
        · exact ⟨add c ep, by simp [ZoneMap.set, he]⟩
        · obtain ⟨c', hc'⟩ := hm z hzm
          exact ⟨c', by simp [ZoneMap.set, he, hc']⟩
      obtain ⟨m', h1, h2⟩ := ih _ hm'
      refine ⟨m', by simp only [planLoop, hz, if_false, hc]; exact h1, ?_⟩
      intro z
      rw [h2 z]
      by_cases he : z = endpointZoneName ep zones
      · have ht : matchesZone zones z ep = true := by
          simp only [matchesZone, decide_eq_true_eq]
          exact ⟨he.symm, by rw [he]; exact hz⟩
        rw [List.filter_cons_of_pos ht]
        subst he
        simp [ZoneMap.set, hc]
      · have hf : matchesZone zones z ep = false := by
          simp only [matchesZone, decide_eq_false_iff_not, not_and]
          intro h; exact absurd h.symm he
        rw [List.filter_cons_of_neg (by simp [hf])]
        simp [ZoneMap.set, he]

theorem planCreate_eq (zones : List String) (eps : List Endpoint) :
    ∀ (m : ZoneMap) (all : List Endpoint),
      planCreate zones eps m all =
        (planLoop zones addCreate eps m).map
          (fun m' => (m', all ++ eps.filter (fun ep => decide (endpointZoneName ep zones ≠ "")))) := by
  induction eps with
  | nil => intro m all; simp [planCreate, planLoop]
  | cons ep eps ih =>
    intro m all
    by_cases hz : endpointZoneName ep zones = ""
    · simp only [planCreate, planLoop, hz, if_true]
      rw [ih]
      simp [hz]
    · simp only [planCreate, planLoop, hz, if_false]
      cases hc : m (endpointZoneName ep zones) with
      | none => simp
      | some c =>
        simp only
        rw [ih]
        simp [hz]

theorem foldl_addCreate (l : List Endpoint) :
    ∀ c : Changes, l.foldl addCreate c = { c with Create := c.Create ++ l } := by
  induction l with
  | nil => intro c; simp
  | cons e l ih => intro c; simp [ih, addCreate]

theorem foldl_addUpdateOld (l : List Endpoint) :
    ∀ c : Changes, l.foldl addUpdateOld c = { c with UpdateOld := c.UpdateOld ++ l } := by
  induction l with
  | nil => intro c; simp
  | cons e l ih => intro c; simp [ih, addUpdateOld]

theorem foldl_addUpdateNew (l : List Endpoint) :
    ∀ c : Changes, l.foldl addUpdateNew c = { c with UpdateNew := c.UpdateNew ++ l } := by
  induction l with
  | nil => intro c; simp
  | cons e l ih => intro c; simp [ih, addUpdateNew]

theorem foldl_addDelete (l : List Endpoint) :
    ∀ c : Changes, l.foldl addDelete c = { c with Delete := c.Delete ++ l } := by
  induction l with
  | nil => intro c; simp
  | cons e l ih => intro c; simp [ih, addDelete]

/-- The partition never panics; the entry of an allow-listed zone holds, per
category, the endpoints of the batch that match the zone, in input order;
no other key has an entry; the planned endpoints are the Create endpoints
that match some zone. -/
theorem perZoneChanges_spec (zones : List String) (batch : Changes) :
    ∃ perZone : ZoneMap,
      perZoneChanges zones batch =
        some (perZone, batch.Create.filter (fun ep => decide (endpointZoneName ep zones ≠ ""))) ∧
      (∀ z ∈ zones, perZone z = some
        ⟨batch.Create.filter (matchesZone zones z), batch.UpdateOld.filter (matchesZone zones z),
         batch.UpdateNew.filter (matchesZone zones z), batch.Delete.filter (matchesZone zones z)⟩) ∧
      (∀ z, z ∉ zones → perZone z = none) := by
  obtain ⟨s1, s2⟩ := seedZones_spec zones (fun _ => none)
  have k0 : ∀ z ∈ zones, ∃ c, seedZones zones (fun _ => none) z = some c :=
    fun z hz => ⟨_, s1 z hz⟩
  obtain ⟨m1, e1, v1⟩ := planLoop_spec zones addCreate batch.Create _ k0
  have k1 : ∀ z ∈ zones, ∃ c, m1 z = some c := by
    intro z hz; rw [v1 z, s1 z hz]; exact ⟨_, rfl⟩
  obtain ⟨m2, e2, v2⟩ := planLoop_spec zones addUpdateOld batch.UpdateOld _ k1
  have k2 : ∀ z ∈ zones, ∃ c, m2 z = some c := by
    intro z hz; rw [v2 z, v1 z, s1 z hz]; exact ⟨_, rfl⟩
  obtain ⟨m3, e3, v3⟩ := planLoop_spec zones addUpdateNew batch.UpdateNew _ k2
  have k3 : ∀ z ∈ zones, ∃ c, m3 z = some c := by
    intro z hz; rw [v3 z, v2 z, v1 z, s1 z hz]; exact ⟨_, rfl⟩
  obtain ⟨m4, e4, v4⟩ := planLoop_spec zones addDelete batch.Delete _ k3
  refine ⟨m4, ?_, ?_, ?_⟩
  · simp only [perZoneChanges, planCreate_eq, e1, Option.map_some', e2, e3, e4, List.nil_append]
  · intro z hz
    rw [v4 z, v3 z, v2 z, v1 z, s1 z hz]
    simp [foldl_addCreate, foldl_addUpdateOld, foldl_addUpdateNew, foldl_addDelete, emptyChanges]
  · intro z hz
    rw [v4 z, v3 z, v2 z, v1 z, s2 z hz]
    rfl

theorem matchesZone_iff (zones : List String) (z : String) (ep : Endpoint) :
    matchesZone zones z ep = true ↔ endpointZoneName ep zones = z ∧ z ≠ "" := by
  simp [matchesZone]

/-- C2: the partition built by `ApplyChanges` never panics and, for every
allow-listed zone `z` and every category, the per-zone sequence is the input
sequence of that category filtered to the endpoints whose matched zone is
`z` (same order, same multiplicity); keys outside the allow-list have no
entry; an endpoint matches at most one zone, an endpoint with a non-empty
zone name matches exactly that allow-listed zone, and an endpoint with an
empty zone name matches none. -/
theorem perZoneChanges_stable_partition (zones : List String) (batch : Changes) :
    ∃ (perZone : ZoneMap) (planned : List Endpoint),
      perZoneChanges zones batch = some (perZone, planned) ∧
      (∀ z ∈ zones, ∃ c, perZone z = some c ∧
        c.Create = batch.Create.filter (matchesZone zones z) ∧
        c.UpdateOld = batch.UpdateOld.filter (matchesZone zones z) ∧
        c.UpdateNew = batch.UpdateNew.filter (matchesZone zones z) ∧
        c.Delete = batch.Delete.filter (matchesZone zones z)) ∧
      (∀ z, z ∉ zones → perZone z = none) ∧
      (∀ ep z1 z2, matchesZone zones z1 ep = true → matchesZone zones z2 ep = true → z1 = z2) ∧
      (∀ ep, endpointZoneName ep zones ≠ "" →
        endpointZoneName ep zones ∈ zones ∧
        matchesZone zones (endpointZoneName ep zones) ep = true) ∧
      (∀ ep, endpointZoneName ep zones = "" → ∀ z, matchesZone zones z ep = false) := by
  obtain ⟨perZone, h1, h2, h3⟩ := perZoneChanges_spec zones batch
  refine ⟨perZone, _, h1, ?_, h3, ?_, ?_, ?_⟩
  · intro z hz
    exact ⟨_, h2 z hz, rfl, rfl, rfl, rfl⟩
  · intro ep z1 z2 m1 m2
    rw [matchesZone_iff] at m1 m2
    rw [← m1.1, ← m2.1]
  · intro ep hne
    refine ⟨endpointZoneName_mem ep zones hne, ?_⟩
    rw [matchesZone_iff]
    exact ⟨rfl, hne⟩
  · intro ep he z
    cases hm : matchesZone zones z ep with
    | false => rfl
    | true =>
      rw [matchesZone_iff] at hm
      exact absurd (hm.1.symm ▸ he) hm.2

/-! ## Record translator -/

theorem trimSuffix_of_hasSuffix (n suf : String) (h : HasSuffix n suf = true) :
    n = TrimSuffix n suf ++ suf := by
  apply String.ext
  simp only [TrimSuffix, h, if_true, String.data_append]
  unfold HasSuffix at h
  simp only [Bool.and_eq_true, decide_eq_true_eq, beq_iff_eq] at h
  rw [← h.2]
  exact (List.take_append_drop _ _).symm

theorem trimSuffix_of_not_hasSuffix (n suf : String) (h : HasSuffix n suf = false) :
    TrimSuffix n suf = n := by
  simp [TrimSuffix, h]

theorem recordName_cases (n z : String) (hslip : n ≠ z ++ "." ++ z) :
    (n = z ∧ recordName n z = "@") ∨ n = recordName n z ++ "." ++ z ∨
      (recordName n z = n ∧ n ≠ z ∧ HasSuffix n ("." ++ z) = false) := by
  cases hs : HasSuffix n ("." ++ z) with
  | true =>
    have hn := trimSuffix_of_hasSuffix n ("." ++ z) hs
    rw [← String.append_assoc] at hn
    have hne : TrimSuffix n ("." ++ z) ≠ z := by
      intro he
      rw [he] at hn
      exact hslip hn
    right; left
    simp only [recordName, if_neg hne]
    exact hn
  | false =>
    have ht := trimSuffix_of_not_hasSuffix n ("." ++ z) hs
    by_cases he : n = z
    · left
      refine ⟨he, ?_⟩
      simp only [recordName, ht, if_pos he]
    · right; right
      refine ⟨?_, he, rfl⟩
      simp only [recordName, ht, if_neg he]

theorem convertEndpoint_some (existing : List DnsRecord) (z : String) (del : Bool)
    (ep : Endpoint) (r : DnsRecord) (h : convertEndpoint (some existing) z del ep = some r) :
    ∃ t ts, ep.Targets = t :: ts ∧
      r = { Type_ := ep.RecordType, Hostname := recordName ep.DNSName z,
            Destination := recordTarget ep.RecordType t,
            Id := getIDLoop (recordName ep.DNSName z) (recordTarget ep.RecordType t)
              ep.RecordType existing,
            DeleteRecord := del, Priority := "", State := "" } := by
  unfold convertEndpoint at h
  cases ht : ep.Targets with
  | nil => simp [ht] at h
  | cons t ts =>
    simp only [ht, getIDforRecord, Option.some.injEq] at h
    exact ⟨t, ts, rfl, h.symm⟩

theorem convertEndpoint_delete (recs : Option (List DnsRecord)) (z : String) (del : Bool)
    (ep : Endpoint) (r : DnsRecord) (h : convertEndpoint recs z del ep = some r) :
    r.DeleteRecord = del := by
  unfold convertEndpoint at h
  cases ht : ep.Targets with
  | nil => simp [ht] at h
  | cons t ts =>
    simp only [ht] at h
    cases hid : getIDforRecord (recordName ep.DNSName z) (recordTarget ep.RecordType t)
        ep.RecordType recs with
    | none => simp [hid] at h
    | some id =>
      simp only [hid, Option.some.injEq] at h
      rw [← h]

theorem convertEndpoint_total (existing : List DnsRecord) (z : String) (del : Bool)
    (ep : Endpoint) (h : ep.Targets ≠ []) :
    ∃ r, convertEndpoint (some existing) z del ep = some r := by
  unfold convertEndpoint
  cases ht : ep.Targets with
  | nil => exact absurd ht h
  | cons t ts => simp [getIDforRecord]

/-- A successful translation pairs every endpoint, in order, with the record
of its own loop iteration. -/
theorem convert_forall₂ (recs : Option (List DnsRecord)) (z : String) (del : Bool) :
    ∀ (eps : List Endpoint) (rs : List DnsRecord),
      convertToNetcupRecord recs eps z del = some rs →
      List.Forall₂ (fun ep r => ep ∈ eps ∧ convertEndpoint recs z del ep = some r) eps rs := by
  intro eps
  induction eps with
  | nil =>
    intro rs h
    simp only [convertToNetcupRecord, Option.some.injEq] at h
    rw [← h]
    exact List.Forall₂.nil
  | cons ep eps ih =>
    intro rs h
    simp only [convertToNetcupRecord] at h
    cases h1 : convertEndpoint recs z del ep with
    | none => simp [h1] at h
    | some r =>
      cases h2 : convertToNetcupRecord recs eps z del with
      | none => simp [h1, h2] at h
      | some rs' =>
        simp only [h1, h2, Option.some.injEq] at h
        rw [← h]
        refine List.Forall₂.cons ⟨List.mem_cons_self _ _, h1⟩ ?_
        exact (ih rs' h2).imp (fun a b hab => ⟨List.mem_cons_of_mem _ hab.1, hab.2⟩)

/-- With a record list at hand the translation only panics on an endpoint
without targets. -/
theorem convert_total (existing : List DnsRecord) (z : String) (del : Bool) :
    ∀ eps : List Endpoint, (∀ ep ∈ eps, ep.Targets ≠ []) →
      ∃ rs, convertToNetcupRecord (some existing) eps z del = some rs := by
  intro eps
  induction eps with
  | nil => intro _; exact ⟨[], rfl⟩
  | cons ep eps ih =>
    intro h
    obtain ⟨r, hr⟩ := convertEndpoint_total existing z del ep (h ep (List.mem_cons_self _ _))
    obtain ⟨rs, hrs⟩ := ih (fun e he => h e (List.mem_cons_of_mem _ he))
    exact ⟨r :: rs, by simp only [convertToNetcupRecord, hr, hrs]⟩

theorem forall₂_right_mem {α β : Type} (R : α → β → Prop) (l1 : List α) (l2 : List β)
    (h : List.Forall₂ R l1 l2) : ∀ b ∈ l2, ∃ a ∈ l1, R a b := by
  induction h with
  | nil => intro b hb; simp at hb
  | cons hab _ ih =>
    intro b hb
    rcases List.mem_cons.mp hb with rfl | hb
    · exact ⟨_, List.mem_cons_self _ _, hab⟩
    · obtain ⟨a, ha, hr⟩ := ih b hb
      exact ⟨a, List.mem_cons_of_mem _ ha, hr⟩

theorem convert_delete (recs : Option (List DnsRecord)) (z : String) (del : Bool)
    (eps : List Endpoint) (rs : List DnsRecord)
    (h : convertToNetcupRecord recs eps z del = some rs) :
    ∀ r ∈ rs, r.DeleteRecord = del := by
  intro r hr
  obtain ⟨ep, _, hep⟩ := forall₂_right_mem _ _ _ (convert_forall₂ recs z del eps rs h) r hr
  exact convertEndpoint_delete recs z del ep r hep.2

theorem zoneBatch_mem (zones : List String) (batch : Changes) (z : String) (c : Changes)
    (ep : Endpoint) (hc : zoneBatch zones batch z = some c)
    (hep : ep ∈ c.Create ∨ ep ∈ c.UpdateOld ∨ ep ∈ c.UpdateNew ∨ ep ∈ c.Delete) :
    endpointZoneName ep zones = z ∧ z ≠ "" := by
  obtain ⟨pz, h1, h2, h3⟩ := perZoneChanges_spec zones batch
  simp only [zoneBatch, h1, Option.some_bind] at hc
  by_cases hz : z ∈ zones
  · rw [h2 z hz, Option.some.injEq] at hc
    rw [← matchesZone_iff]
    subst hc
    simp only [List.mem_filter] at hep
    rcases hep with h | h | h | h <;> exact h.2
  · rw [h3 z hz] at hc
    exact absurd hc (by simp)

/-- C3 (the code at the failing input): with the allow-list `example.com`,
the Create endpoint `wwwexample.com` is placed in the batch of `example.com`
(the zone name is a suffix of the name, with no dot before it), its record
gets the hostname `wwwexample.com`, the name is neither the zone name nor
`hostname + "." + zone`, and the read path rebuilds from that hostname the
name `wwwexample.com.example.com`, not the name of the endpoint. -/
theorem hostname_not_zone_relative :
    endpointZoneName epNoDot ["example.com"] = "example.com" ∧
    zoneBatch ["example.com"] ⟨[epNoDot], [], [], []⟩ "example.com"
      = some ⟨[epNoDot], [], [], []⟩ ∧
    convertToNetcupRecord (some []) [epNoDot] "example.com" false
      = some [⟨"", "wwwexample.com", "A", "", "1.2.3.4", false, ""⟩] ∧
    ¬ ((epNoDot.DNSName = "example.com" ∧ "wwwexample.com" = "@") ∨
        epNoDot.DNSName = "wwwexample.com" ++ "." ++ "example.com") ∧
    recordDNSName "example.com" ⟨"", "wwwexample.com", "A", "", "1.2.3.4", false, ""⟩
      = "wwwexample.com.example.com" ∧
    recordDNSName "example.com" ⟨"", "wwwexample.com", "A", "", "1.2.3.4", false, ""⟩
      ≠ epNoDot.DNSName := by
  decide

/-- Where the translation does give the zone-relative label.  For every
category `L` of the batch the partitioner builds for zone `z`, endpoints
having a target, the translation returns one record per endpoint, in order,
and for each endpoint on its own (its zone name is `z`, non-empty): unless
its name is `z + "." + z`, either the name equals `z` and the hostname is
`"@"`, or the name equals `hostname + "." + z`, or the name ends in `z`
without ending in `"." + z`, differs from `z`, and the hostname is the whole
name; in particular the hostname is the zone-relative label whenever the
name is `z` or ends in `"." + z`, the name `z + "." + z` apart. -/
theorem hostname_zone_relative (zones : List String) (batch : Changes) (z : String)
    (c : Changes) (L : List Endpoint) (existing : List DnsRecord) (del : Bool)
    (hc : zoneBatch zones batch z = some c)
    (hL : L = c.Create ∨ L = c.UpdateOld ∨ L = c.UpdateNew ∨ L = c.Delete)
    (hT : ∀ ep ∈ L, ep.Targets ≠ []) :
    ∃ rs, convertToNetcupRecord (some existing) L z del = some rs ∧
      List.Forall₂ (fun ep r =>
        endpointZoneName ep zones = z ∧ z ≠ "" ∧
        (ep.DNSName ≠ z ++ "." ++ z →
          ((ep.DNSName = z ∧ r.Hostname = "@") ∨
            ep.DNSName = r.Hostname ++ "." ++ z ∨
            (r.Hostname = ep.DNSName ∧ ep.DNSName ≠ z ∧ HasSuffix ep.DNSName z = true ∧
              HasSuffix ep.DNSName ("." ++ z) = false))) ∧
        (ep.DNSName ≠ z ++ "." ++ z →
          (ep.DNSName = z ∨ HasSuffix ep.DNSName ("." ++ z) = true) →
          ((ep.DNSName = z ∧ r.Hostname = "@") ∨ ep.DNSName = r.Hostname ++ "." ++ z))) L rs := by
  obtain ⟨rs, hrs⟩ := convert_total existing z del L hT
  refine ⟨rs, hrs, ?_⟩
  refine (convert_forall₂ _ z del L rs hrs).imp ?_
  intro ep r ⟨hmem, hconv⟩
  have hplaced : endpointZoneName ep zones = z ∧ z ≠ "" := by
    apply zoneBatch_mem zones batch z c ep hc
    rcases hL with h | h | h | h
    · exact Or.inl (h ▸ hmem)
    · exact Or.inr (Or.inl (h ▸ hmem))
    · exact Or.inr (Or.inr (Or.inl (h ▸ hmem)))
    · exact Or.inr (Or.inr (Or.inr (h ▸ hmem)))
  obtain ⟨t, ts, _, hr⟩ := convertEndpoint_some existing z del ep r hconv
  have hh : r.Hostname = recordName ep.DNSName z := by rw [hr]
  have hsuf : HasSuffix ep.DNSName z = true := by
    have := endpointZoneName_suffix ep zones
    rw [hplaced.1] at this
    exact this
  refine ⟨hplaced.1, hplaced.2, ?_, ?_⟩
  · intro hslip
    rw [hh]
    rcases recordName_cases ep.DNSName z hslip with h | h | h
    · exact Or.inl h
    · exact Or.inr (Or.inl h)
    · exact Or.inr (Or.inr ⟨h.1, h.2.1, hsuf, h.2.2⟩)
  · intro hslip hdot
    rw [hh]
    rcases recordName_cases ep.DNSName z hslip with h | h | h
    · exact Or.inl h
    · exact Or.inr h
    · rcases hdot with hd | hd
      · exact absurd hd h.2.1
      · rw [h.2.2] at hd; cases hd

theorem getIDLoop_match (hostname target recordType : String) (existing : List DnsRecord) :
    ((∃ e ∈ existing, e.Hostname = hostname ∧ e.Type_ = recordType ∧ e.Destination = target) →
      ∃ e ∈ existing, (e.Hostname = hostname ∧ e.Type_ = recordType ∧ e.Destination = target) ∧
        getIDLoop hostname target recordType existing = e.Id) ∧
    ((¬ ∃ e ∈ existing, e.Hostname = hostname ∧ e.Type_ = recordType ∧ e.Destination = target) →
      getIDLoop hostname target recordType existing = "") := by
  induction existing with
  | nil => simp [getIDLoop]
  | cons e es ih =>
    by_cases hm : recordType = e.Type_ ∧ target = e.Destination ∧ e.Hostname = hostname
    · have hv : getIDLoop hostname target recordType (e :: es) = e.Id := by
        simp only [getIDLoop, if_pos hm]
      constructor
      · intro _
        exact ⟨e, List.mem_cons_self _ _, ⟨hm.2.2, hm.1.symm, hm.2.1.symm⟩, hv⟩
      · intro hno
        exact absurd ⟨e, List.mem_cons_self _ _, hm.2.2, hm.1.symm, hm.2.1.symm⟩ hno
    · have hv : getIDLoop hostname target recordType (e :: es)
          = getIDLoop hostname target recordType es := by
        simp only [getIDLoop, if_neg hm]
      rw [hv]
      constructor
      · rintro ⟨e', he', hm'⟩
        rcases List.mem_cons.mp he' with rfl | hmem
        · exact absurd ⟨hm'.2.1.symm, hm'.2.2.symm, hm'.1⟩ hm
        · obtain ⟨e2, h2, hm2, hid⟩ := ih.1 ⟨e', hmem, hm'⟩
          exact ⟨e2, List.mem_cons_of_mem _ h2, hm2, hid⟩
      · intro hno
        apply ih.2
        rintro ⟨e', he', hm'⟩
        exact hno ⟨e', List.mem_cons_of_mem _ he', hm'⟩

/-- C5: given the existing records of the zone and endpoints that all have a
target, the translation returns one record per endpoint, in order; each
record carries the translated hostname, the type and the (unquoted) first
target of its endpoint, and its id is the id of an existing record with the
same hostname, type and destination whenever there is one, the empty id
otherwise. -/
theorem convertToNetcupRecord_resolves_id (existing : List DnsRecord) (eps : List Endpoint)
    (zone : String) (del : Bool) (hT : ∀ ep ∈ eps, ep.Targets ≠ []) :
    ∃ rs, convertToNetcupRecord (some existing) eps zone del = some rs ∧
      List.Forall₂ (fun ep r =>
        r.Hostname = recordName ep.DNSName zone ∧ r.Type_ = ep.RecordType ∧
        (∃ t ts, ep.Targets = t :: ts ∧ r.Destination = recordTarget ep.RecordType t) ∧
        ((∃ e ∈ existing, e.Hostname = r.Hostname ∧ e.Type_ = r.Type_ ∧
            e.Destination = r.Destination) →
          ∃ e ∈ existing, (e.Hostname = r.Hostname ∧ e.Type_ = r.Type_ ∧
            e.Destination = r.Destination) ∧ r.Id = e.Id) ∧
        ((¬ ∃ e ∈ existing, e.Hostname = r.Hostname ∧ e.Type_ = r.Type_ ∧
            e.Destination = r.Destination) → r.Id = "")) eps rs := by
  obtain ⟨rs, hrs⟩ := convert_total existing zone del eps hT
  refine ⟨rs, hrs, ?_⟩
  refine (convert_forall₂ _ zone del eps rs hrs).imp ?_
  intro ep r ⟨_, hconv⟩
  obtain ⟨t, ts, ht, hr⟩ := convertEndpoint_some existing zone del ep r hconv
  subst hr
  exact ⟨rfl, rfl, ⟨t, ts, ht, rfl⟩, getIDLoop_match _ _ _ existing⟩

/-- C5 at the scenario of the specification: with the existing record
`id 42, www, A, 1.2.3.4`, the Delete endpoint `www.example.com A 1.2.3.4` of
the zone `example.com` is translated to the record with id `"42"`. -/
theorem convertToNetcupRecord_resolves_id_witness :
    (∃ rs, convertToNetcupRecord (some [recWww42]) [epWww] "example.com" true = some rs ∧
      List.Forall₂ (fun ep r =>
        r.Hostname = recordName ep.DNSName "example.com" ∧ r.Type_ = ep.RecordType ∧
        (∃ t ts, ep.Targets = t :: ts ∧ r.Destination = recordTarget ep.RecordType t) ∧
        ((∃ e ∈ [recWww42], e.Hostname = r.Hostname ∧ e.Type_ = r.Type_ ∧
            e.Destination = r.Destination) →
          ∃ e ∈ [recWww42], (e.Hostname = r.Hostname ∧ e.Type_ = r.Type_ ∧
            e.Destination = r.Destination) ∧ r.Id = e.Id) ∧
        ((¬ ∃ e ∈ [recWww42], e.Hostname = r.Hostname ∧ e.Type_ = r.Type_ ∧
            e.Destination = r.Destination) → r.Id = "")) [epWww] rs) ∧
    convertToNetcupRecord (some [recWww42]) [epWww] "example.com" true
      = some [⟨"42", "www", "A", "", "1.2.3.4", true, ""⟩] :=
  ⟨convertToNetcupRecord_resolves_id [recWww42] [epWww] "example.com" true (by decide),
    by decide⟩

/-! ## Apply sequencer: the successful run -/

theorem submitZone_ok (s : NetcupSession) (z : String) (uo de cr un : List DnsRecord)
    (hist : List Event)
    (h : ∀ ev ∈ (submitZone s z uo de cr un hist).2, Event.succeeded ev = true) :
    submitZone s z uo de cr un hist =
      (Result.ok (), hist ++ [Event.UpdateDnsRecords z uo none, Event.UpdateDnsRecords z de none,
        Event.UpdateDnsRecords z cr none, Event.UpdateDnsRecords z un none]) := by
  unfold submitZone at h ⊢
  simp only at h ⊢
  cases e1 : s.UpdateDnsRecords hist z uo with
  | some err =>
    simp only [e1] at h
    have := h (Event.UpdateDnsRecords z uo (some err)) (by simp)
    simp [Event.succeeded] at this
  | none =>
    simp only [e1] at h ⊢
    cases e2 : s.UpdateDnsRecords (hist ++ [Event.UpdateDnsRecords z uo none]) z de with
    | some err =>
      simp only [e2] at h
      have := h (Event.UpdateDnsRecords z de (some err)) (by simp)
      simp [Event.succeeded] at this
    | none =>
      simp only [e2] at h ⊢
      cases e3 : s.UpdateDnsRecords (hist ++ [Event.UpdateDnsRecords z uo none] ++
          [Event.UpdateDnsRecords z de none]) z cr with
      | some err =>
        simp only [e3] at h
        have := h (Event.UpdateDnsRecords z cr (some err)) (by simp)
        simp [Event.succeeded] at this
      | none =>
        simp only [e3] at h ⊢
        cases e4 : s.UpdateDnsRecords (hist ++ [Event.UpdateDnsRecords z uo none] ++
            [Event.UpdateDnsRecords z de none] ++ [Event.UpdateDnsRecords z cr none]) z un with
        | some err =>
          simp only [e4] at h
          have := h (Event.UpdateDnsRecords z un (some err)) (by simp)
          simp [Event.succeeded] at this
        | none =>
          simp [e4]

theorem submitZone_prefix (s : NetcupSession) (z : String) (uo de cr un : List DnsRecord)
    (hist : List Event) : ∃ t, (submitZone s z uo de cr un hist).2 = hist ++ t := by
  unfold submitZone
  simp only
  cases s.UpdateDnsRecords hist z uo with
  | some err => exact ⟨_, rfl⟩
  | none =>
    simp only
    cases s.UpdateDnsRecords (hist ++ [Event.UpdateDnsRecords z uo none]) z de with
    | some err => exact ⟨_, by simp only [List.append_assoc]; rfl⟩
    | none =>
      simp only
      cases s.UpdateDnsRecords (hist ++ [Event.UpdateDnsRecords z uo none] ++
          [Event.UpdateDnsRecords z de none]) z cr with
      | some err => exact ⟨_, by simp only [List.append_assoc]; rfl⟩
      | none =>
        simp only
        cases s.UpdateDnsRecords (hist ++ [Event.UpdateDnsRecords z uo none] ++
            [Event.UpdateDnsRecords z de none] ++ [Event.UpdateDnsRecords z cr none]) z un with
        | some err => exact ⟨_, by simp only [List.append_assoc]; rfl⟩
        | none => exact ⟨_, by simp only [List.append_assoc]; rfl⟩

theorem applyZone_info (s : NetcupSession) (z : String) (c : Changes) (hist : List Event) :
    ∃ t, (applyZone s z c hist).2 =
      hist ++ Event.InfoDnsRecords z (s.InfoDnsRecords hist z) :: t := by
  unfold applyZone
  simp only
  cases convertToNetcupRecord (s.InfoDnsRecords hist z).recs c.Create z false with
  | none => exact ⟨[], rfl⟩
  | some create =>
    cases convertToNetcupRecord (s.InfoDnsRecords hist z).recs c.UpdateNew z false with
    | none => exact ⟨[], rfl⟩
    | some updateNew =>
      cases convertToNetcupRecord (s.InfoDnsRecords hist z).recs c.UpdateOld z true with
      | none => exact ⟨[], rfl⟩
      | some updateOld =>
        cases convertToNetcupRecord (s.InfoDnsRecords hist z).recs c.Delete z true with
        | none => exact ⟨[], rfl⟩
        | some delete =>
          simp only
          obtain ⟨t, ht⟩ := submitZone_prefix s z updateOld delete create updateNew
            (hist ++ [Event.InfoDnsRecords z (s.InfoDnsRecords hist z)])
          exact ⟨t, by rw [ht]; simp⟩

theorem applyZones_prefix (s : NetcupSession) (perZone : ZoneMap) :
    ∀ (order : List String) (hist : List Event),
      ∃ t, (applyZones s perZone order hist).2 = hist ++ t := by
  intro order
  induction order with
  | nil => intro hist; exact ⟨[], by simp [applyZones]⟩
  | cons z rest ih =>
    intro hist
    unfold applyZones
    cases hc : perZone z with
    | none => exact ⟨[], by simp⟩
    | some c =>
      simp only
      obtain ⟨t1, ht1⟩ := applyZone_info s z c hist
      cases hr : (applyZone s z c hist).1 with
      | ok u =>
        simp only
        obtain ⟨t2, ht2⟩ := ih (applyZone s z c hist).2
        exact ⟨_, by rw [ht2, ht1, List.append_assoc]⟩
      | error err => exact ⟨_, ht1⟩
      | panic => exact ⟨_, ht1⟩

theorem applyZones_cons_mem (s : NetcupSession) (perZone : ZoneMap) (z : String)
    (rest : List String) (c : Changes) (hist : List Event) (hc : perZone z = some c) :
    ∀ ev ∈ (applyZone s z c hist).2, ev ∈ (applyZones s perZone (z :: rest) hist).2 := by
  intro ev hev
  unfold applyZones
  simp only [hc]
  cases hr : (applyZone s z c hist).1 with
  | ok u =>
    simp only
    obtain ⟨t, ht⟩ := applyZones_prefix s perZone rest (applyZone s z c hist).2
    rw [ht]
    exact List.mem_append_left _ hev
  | error err => exact hev
  | panic => exact hev

theorem applyZone_ok (s : NetcupSession) (z : String) (c : Changes) (hist : List Event)
    (h : ∀ ev ∈ (applyZone s z c hist).2, Event.succeeded ev = true)
    (hT : ∀ ep ∈ c.Create ++ c.UpdateOld ++ c.UpdateNew ++ c.Delete, ep.Targets ≠ []) :
    ∃ block, ZoneBlock z c block ∧ applyZone s z c hist = (Result.ok (), hist ++ block) := by
  obtain ⟨t, ht⟩ := applyZone_info s z c hist
  have hinfo := h (Event.InfoDnsRecords z (s.InfoDnsRecords hist z)) (by rw [ht]; simp)
  simp only [Event.succeeded, Bool.and_eq_true] at hinfo
  obtain ⟨existing, hrecs⟩ := Option.isSome_iff_exists.mp hinfo.2
  have hT' : ∀ L : List Endpoint, (∀ ep ∈ L, ep ∈ c.Create ++ c.UpdateOld ++ c.UpdateNew ++ c.Delete) →
      ∀ ep ∈ L, ep.Targets ≠ [] := fun L hL ep hep => hT ep (hL ep hep)
  obtain ⟨cr, hcr⟩ := convert_total existing z false c.Create (hT' _ (by intro ep h; simp [h]))
  obtain ⟨un, hun⟩ := convert_total existing z false c.UpdateNew (hT' _ (by intro ep h; simp [h]))
  obtain ⟨uo, huo⟩ := convert_total existing z true c.UpdateOld (hT' _ (by intro ep h; simp [h]))
  obtain ⟨de, hde⟩ := convert_total existing z true c.Delete (hT' _ (by intro ep h; simp [h]))
  have hrun : applyZone s z c hist = submitZone s z uo de cr un
      (hist ++ [Event.InfoDnsRecords z (s.InfoDnsRecords hist z)]) := by
    unfold applyZone
    simp only [hrecs, hcr, hun, huo, hde]
  rw [hrun] at h ⊢
  rw [submitZone_ok s z uo de cr un _ h]
  refine ⟨[Event.InfoDnsRecords z (s.InfoDnsRecords hist z), Event.UpdateDnsRecords z uo none,
    Event.UpdateDnsRecords z de none, Event.UpdateDnsRecords z cr none,
    Event.UpdateDnsRecords z un none], ?_, by simp⟩
  refine ⟨_, uo, de, cr, un, rfl, ?_, ?_, ?_, ?_, ?_, ?_, ?_, ?_⟩
  · rw [hrecs]; exact huo
  · rw [hrecs]; exact hde
  · rw [hrecs]; exact hcr
  · rw [hrecs]; exact hun
  · exact convert_delete _ z true _ _ huo
  · exact convert_delete _ z true _ _ hde
  · exact convert_delete _ z false _ _ hcr
  · exact convert_delete _ z false _ _ hun

theorem applyZones_ok (s : NetcupSession) (perZone : ZoneMap) :
    ∀ (order : List String) (hist : List Event),
      (∀ z ∈ order, ∃ c, perZone z = some c ∧
        ∀ ep ∈ c.Create ++ c.UpdateOld ++ c.UpdateNew ++ c.Delete, ep.Targets ≠ []) →
      (∀ ev ∈ (applyZones s perZone order hist).2, Event.succeeded ev = true) →
      ∃ blocks : List (List Event),
        applyZones s perZone order hist = (Result.ok (), hist ++ blocks.flatten) ∧
        List.Forall₂ (fun z block => ∃ c, perZone z = some c ∧ ZoneBlock z c block)
          order blocks := by
  intro order
  induction order with
  | nil =>
    intro hist _ _
    exact ⟨[], by simp [applyZones], List.Forall₂.nil⟩
  | cons z rest ih =>
    intro hist hkeys hok
    obtain ⟨c, hc, hT⟩ := hkeys z (List.mem_cons_self _ _)
    have h1 : ∀ ev ∈ (applyZone s z c hist).2, Event.succeeded ev = true :=
      fun ev hev => hok ev (applyZones_cons_mem s perZone z rest c hist hc ev hev)
    obtain ⟨block, hblock, hrun⟩ := applyZone_ok s z c hist h1 hT
    have hstep : applyZones s perZone (z :: rest) hist
        = applyZones s perZone rest (hist ++ block) := by
      conv_lhs => unfold applyZones
      simp only [hc, hrun]
    rw [hstep] at hok ⊢
    obtain ⟨blocks, hb, hf⟩ := ih (hist ++ block)
      (fun z' hz' => hkeys z' (List.mem_cons_of_mem _ hz')) hok
    refine ⟨block :: blocks, ?_, List.Forall₂.cons ⟨c, hc, hblock⟩ hf⟩
    rw [hb]
    simp

theorem zoneBatch_eq (zones : List String) (batch : Changes) (perZone : ZoneMap)
    (planned : List Endpoint) (h : perZoneChanges zones batch = some (perZone, planned))
    (z : String) : zoneBatch zones batch z = perZone z := by
  simp [zoneBatch, h]

theorem ApplyChanges_run (lib : Lib) (order : List String) (p : WrdProvider) (s : NetcupSession)
    (all : List Endpoint) (changes : Changes) (perZone : ZoneMap) (planned : List Endpoint)
    (hs : p.session = some s) (hdry : p.dryRun ≤ 0) (hch : lib.HasChanges changes = true)
    (hp : perZoneChanges p.domainFilter changes = some (perZone, planned)) :
    ApplyChanges lib order p all changes =
      ⟨(applyZones s perZone order []).1, (applyZones s perZone order []).2 ++ [Event.Logout],
        planned⟩ := by
  unfold ApplyChanges
  simp [hch, hp, hs, not_lt.mpr hdry]

/-- C6: in a non-dry-run `ApplyChanges` on a batch with changes in which
every call to the session succeeds (endpoints having a target), the call
returns success and its calls are, zone after zone in the iteration order of
the map, the read of the zone followed by four submissions: the translated
UpdateOld records, then the translated Delete records, then the translated
Create records, then the translated UpdateNew records of the zone's batch,
with `DeleteRecord` true on every UpdateOld and Delete record and false on
every Create and UpdateNew record; the deferred logout ends the trace. -/
theorem ApplyChanges_submission_order (lib : Lib) (order : List String) (p : WrdProvider)
    (s : NetcupSession) (all : List Endpoint) (changes : Changes)
    (hs : p.session = some s) (hdry : p.dryRun ≤ 0) (hch : lib.HasChanges changes = true)
    (hord : IsKeyOrder order p.domainFilter)
    (hT : ∀ ep ∈ changes.Create ++ changes.UpdateOld ++ changes.UpdateNew ++ changes.Delete,
      ep.Targets ≠ [])
    (hok : ∀ ev ∈ (ApplyChanges lib order p all changes).events, Event.succeeded ev = true) :
    (ApplyChanges lib order p all changes).result = Result.ok () ∧
    ∃ blocks : List (List Event),
      (ApplyChanges lib order p all changes).events = blocks.flatten ++ [Event.Logout] ∧
      List.Forall₂ (fun z block =>
        ∃ c, zoneBatch p.domainFilter changes z = some c ∧ ZoneBlock z c block) order blocks := by
  obtain ⟨pz, h1, h2, _⟩ := perZoneChanges_spec p.domainFilter changes
  rw [ApplyChanges_run lib order p s all changes pz _ hs hdry hch h1] at hok ⊢
  simp only at hok ⊢
  have hkeys : ∀ z ∈ order, ∃ c, pz z = some c ∧
      ∀ ep ∈ c.Create ++ c.UpdateOld ++ c.UpdateNew ++ c.Delete, ep.Targets ≠ [] := by
    intro z hz
    refine ⟨_, h2 z (hord.2.1 z hz), ?_⟩
    intro ep hep
    apply hT ep
    simp only [List.mem_append, List.mem_filter] at hep ⊢
    rcases hep with ((h | h) | h) | h
    · exact Or.inl (Or.inl (Or.inl h.1))
    · exact Or.inl (Or.inl (Or.inr h.1))
    · exact Or.inl (Or.inr h.1)
    · exact Or.inr h.1
  obtain ⟨blocks, hb, hf⟩ := applyZones_ok s pz order [] hkeys
    (fun ev hev => hok ev (List.mem_append_left _ hev))
  rw [hb]
  refine ⟨rfl, blocks, by simp, ?_⟩
  refine hf.imp ?_
  intro z block ⟨c, hc, hblock⟩
  exact ⟨c, by rw [zoneBatch_eq _ _ pz _ h1]; exact hc, hblock⟩

/-- C6 at a run that deletes `www.example.com` over a session that accepts
every call: the four submissions are the empty UpdateOld list, the Delete
record with id `42` marked for deletion, the empty Create list and the empty
UpdateNew list. -/
theorem ApplyChanges_submission_order_witness :
    ((ApplyChanges exampleLib ["example.com"] (providerFor sessionOk 0) [] batchDeleteWww).result
        = Result.ok () ∧
      ∃ blocks : List (List Event),
        (ApplyChanges exampleLib ["example.com"] (providerFor sessionOk 0) []
          batchDeleteWww).events = blocks.flatten ++ [Event.Logout] ∧
        List.Forall₂ (fun z block =>
          ∃ c, zoneBatch (providerFor sessionOk 0).domainFilter batchDeleteWww z = some c ∧
            ZoneBlock z c block) ["example.com"] blocks) ∧
    (ApplyChanges exampleLib ["example.com"] (providerFor sessionOk 0) [] batchDeleteWww).events =
      [Event.InfoDnsRecords "example.com" ⟨some [recWww42], none, none⟩,
        Event.UpdateDnsRecords "example.com" [] none,
        Event.UpdateDnsRecords "example.com" [⟨"42", "www", "A", "", "1.2.3.4", true, ""⟩] none,
        Event.UpdateDnsRecords "example.com" [] none,
        Event.UpdateDnsRecords "example.com" [] none,
        Event.Logout] :=
  ⟨ApplyChanges_submission_order exampleLib ["example.com"] (providerFor sessionOk 0) sessionOk []
      batchDeleteWww rfl (by decide) (by decide) (by decide) (by decide) (by decide),
    by decide⟩

/-! ## Apply sequencer: the first failed submission -/

theorem submitZone_failFast (s : NetcupSession) (z : String) (uo de cr un : List DnsRecord)
    (hist : List Event) : FailFast hist (submitZone s z uo de cr un hist) := by
  unfold submitZone FailFast
  simp only
  cases s.UpdateDnsRecords hist z uo with
  | some err =>
    exact ⟨_, rfl, Or.inr ⟨[], z, uo, err, rfl, rfl, by simp⟩⟩
  | none =>
    simp only
    cases s.UpdateDnsRecords (hist ++ [Event.UpdateDnsRecords z uo none]) z de with
    | some err =>
      refine ⟨_, by simp,
        Or.inr ⟨[Event.UpdateDnsRecords z uo none], z, de, err, rfl, rfl, ?_⟩⟩
      simp [Event.failedSubmission]
    | none =>
      simp only
      cases s.UpdateDnsRecords (hist ++ [Event.UpdateDnsRecords z uo none] ++
          [Event.UpdateDnsRecords z de none]) z cr with
      | some err =>
        refine ⟨_, by simp,
          Or.inr ⟨[Event.UpdateDnsRecords z uo none, Event.UpdateDnsRecords z de none], z, cr,
            err, rfl, rfl, ?_⟩⟩
        simp [Event.failedSubmission]
      | none =>
        simp only
        cases s.UpdateDnsRecords (hist ++ [Event.UpdateDnsRecords z uo none] ++
            [Event.UpdateDnsRecords z de none] ++ [Event.UpdateDnsRecords z cr none]) z un with
        | some err =>
          refine ⟨_, by simp,
            Or.inr ⟨[Event.UpdateDnsRecords z uo none, Event.UpdateDnsRecords z de none,
              Event.UpdateDnsRecords z cr none], z, un, err, rfl, rfl, ?_⟩⟩
          simp [Event.failedSubmission]
        | none =>
          refine ⟨_, by simp only [List.append_assoc]; rfl, Or.inl ⟨?_, ?_⟩⟩
          · intro e h; cases h
          · simp [Event.failedSubmission]

theorem failFast_extend (hist mid : List Event) (r : Result Unit × List Event)
    (hmid : ∀ ev ∈ mid, Event.failedSubmission ev = false) (h : FailFast (hist ++ mid) r) :
    FailFast hist r := by
  obtain ⟨new, hnew, hcases⟩ := h
  refine ⟨mid ++ new, by rw [hnew, List.append_assoc], ?_⟩
  rcases hcases with ⟨hne, hall⟩ | ⟨pre, z, rs, e, hpre, hres, hall⟩
  · left
    refine ⟨hne, ?_⟩
    intro ev hev
    rcases List.mem_append.mp hev with h | h
    · exact hmid ev h
    · exact hall ev h
  · right
    refine ⟨mid ++ pre, z, rs, e, by rw [hpre, List.append_assoc], hres, ?_⟩
    intro ev hev
    rcases List.mem_append.mp hev with h | h
    · exact hmid ev h
    · exact hall ev h

theorem failFast_panic (hist new : List Event)
    (hnew : ∀ ev ∈ new, Event.failedSubmission ev = false) :
    FailFast hist (Result.panic, hist ++ new) :=
  ⟨new, rfl, Or.inl ⟨(fun e h => by cases h), hnew⟩⟩

theorem applyZone_failFast (s : NetcupSession) (z : String) (c : Changes) (hist : List Event) :
    FailFast hist (applyZone s z c hist) := by
  have hinfo : ∀ ev ∈ [Event.InfoDnsRecords z (s.InfoDnsRecords hist z)],
      Event.failedSubmission ev = false := by simp [Event.failedSubmission]
  unfold applyZone
  simp only
  cases convertToNetcupRecord (s.InfoDnsRecords hist z).recs c.Create z false with
  | none => exact failFast_panic hist _ hinfo
  | some create =>
    cases convertToNetcupRecord (s.InfoDnsRecords hist z).recs c.UpdateNew z false with
    | none => exact failFast_panic hist _ hinfo
    | some updateNew =>
      cases convertToNetcupRecord (s.InfoDnsRecords hist z).recs c.UpdateOld z true with
      | none => exact failFast_panic hist _ hinfo
      | some updateOld =>
        cases convertToNetcupRecord (s.InfoDnsRecords hist z).recs c.Delete z true with
        | none => exact failFast_panic hist _ hinfo
        | some delete =>
          exact failFast_extend hist _ _ hinfo (submitZone_failFast s z _ _ _ _ _)

theorem applyZones_failFast (s : NetcupSession) (perZone : ZoneMap) :
    ∀ (order : List String) (hist : List Event),
      FailFast hist (applyZones s perZone order hist) := by
  intro order
  induction order with
  | nil =>
    intro hist
    exact ⟨[], by simp [applyZones], Or.inl ⟨(fun e h => by simp [applyZones] at h), by simp⟩⟩
  | cons z rest ih =>
    intro hist
    unfold applyZones
    cases hc : perZone z with
    | none =>
      have := failFast_panic hist [] (by simp)
      simpa using this
    | some c =>
      simp only
      have h1 := applyZone_failFast s z c hist
      cases hr : (applyZone s z c hist).1 with
      | ok u =>
        simp only
        obtain ⟨new, hnew, hcases⟩ := h1
        rcases hcases with ⟨_, hall⟩ | ⟨pre, z', rs, e, _, hres, _⟩
        · have h2 := ih (applyZone s z c hist).2
          rw [hnew] at h2 ⊢
          exact failFast_extend hist new _ hall h2
        · rw [hr] at hres; cases hres
      | error err =>
        have he : (Result.error err, (applyZone s z c hist).2) = applyZone s z c hist :=
          Prod.ext hr.symm rfl
        simp only
        rw [he]
        exact h1
      | panic =>
        have he : (Result.panic, (applyZone s z c hist).2) = applyZone s z c hist :=
          Prod.ext hr.symm rfl
        simp only
        rw [he]
        exact h1

theorem ApplyChanges_cases (lib : Lib) (order : List String) (p : WrdProvider)
    (all : List Endpoint) (changes : Changes) :
    (ApplyChanges lib order p all changes).events = [] ∨
    ∃ (s : NetcupSession) (pz : ZoneMap) (planned : List Endpoint),
      p.session = some s ∧ ¬ p.dryRun > 0 ∧
      perZoneChanges p.domainFilter changes = some (pz, planned) ∧
      ApplyChanges lib order p all changes =
        ⟨(applyZones s pz order []).1, (applyZones s pz order []).2 ++ [Event.Logout],
          planned⟩ := by
  by_cases hch : lib.HasChanges changes = false
  · left; simp [ApplyChanges, hch]
  · cases hp : perZoneChanges p.domainFilter changes with
    | none => left; simp [ApplyChanges, hch, hp]
    | some pr =>
      by_cases hd : p.dryRun > 0
      · left; simp [ApplyChanges, hch, hp, hd]
      · cases hs : p.session with
        | none => left; simp [ApplyChanges, hch, hp, hd, hs]
        | some s =>
          right
          exact ⟨s, pr.1, pr.2, rfl, hd, rfl, by simp [ApplyChanges, hch, hp, hd, hs]⟩

/-- C7: when a submission of an `ApplyChanges` run returns an error,
`ApplyChanges` returns exactly that error, the failed submission is the last
call made to the provider (only the deferred logout of the session follows
it, so neither the remaining stages of the zone nor the remaining zones are
attempted, and nothing is rolled back or retried), and no earlier submission
of the run had failed. -/
theorem ApplyChanges_fail_fast (lib : Lib) (order : List String) (p : WrdProvider)
    (all : List Endpoint) (changes : Changes) (z : String) (rs : List DnsRecord) (e : String)
    (hmem : Event.UpdateDnsRecords z rs (some e) ∈ (ApplyChanges lib order p all changes).events) :
    (ApplyChanges lib order p all changes).result = Result.error e ∧
    ∃ pre, (ApplyChanges lib order p all changes).events
        = pre ++ [Event.UpdateDnsRecords z rs (some e), Event.Logout] ∧
      ∀ ev ∈ pre, Event.failedSubmission ev = false := by
  rcases ApplyChanges_cases lib order p all changes with h0 | ⟨s, pz, planned, _, _, _, hrun⟩
  · rw [h0] at hmem
    simp at hmem
  · rw [hrun] at hmem ⊢
    simp only at hmem ⊢
    obtain ⟨new, hnew, hcases⟩ := applyZones_failFast s pz order []
    rw [hnew] at hmem ⊢
    rw [List.nil_append] at hmem ⊢
    have hmem' : Event.UpdateDnsRecords z rs (some e) ∈ new := by
      rcases List.mem_append.mp hmem with h | h
      · exact h
      · simp at h
    rcases hcases with ⟨_, hall⟩ | ⟨pre, z', rs', e', hpre, hres, hall⟩
    · have := hall _ hmem'
      simp [Event.failedSubmission] at this
    · have hev : Event.UpdateDnsRecords z rs (some e)
          = Event.UpdateDnsRecords z' rs' (some e') := by
        rw [hpre] at hmem'
        rcases List.mem_append.mp hmem' with h | h
        · have := hall _ h
          simp [Event.failedSubmission] at this
        · exact List.mem_singleton.mp h
      cases hev
      rw [hres, hpre]
      exact ⟨rfl, pre, by simp, hall⟩

/-- C7 at a run over two zones in which the second submission of the first
zone is refused: `ApplyChanges` returns that error, the Create and UpdateNew
stages of `example.com` and the whole zone `example.org` are not attempted. -/
theorem ApplyChanges_fail_fast_witness :
    ((ApplyChanges exampleLib ["example.com", "example.org"] (providerTwoZones sessionFailSecond)
        [] batchDeleteWww).result = Result.error "quota exceeded" ∧
      ∃ pre, (ApplyChanges exampleLib ["example.com", "example.org"]
          (providerTwoZones sessionFailSecond) [] batchDeleteWww).events
          = pre ++ [Event.UpdateDnsRecords "example.com"
              [⟨"42", "www", "A", "", "1.2.3.4", true, ""⟩] (some "quota exceeded"),
            Event.Logout] ∧
        ∀ ev ∈ pre, Event.failedSubmission ev = false) ∧
    (ApplyChanges exampleLib ["example.com", "example.org"] (providerTwoZones sessionFailSecond)
        [] batchDeleteWww).events =
      [Event.InfoDnsRecords "example.com" ⟨some [recWww42], none, none⟩,
        Event.UpdateDnsRecords "example.com" [] none,
        Event.UpdateDnsRecords "example.com" [⟨"42", "www", "A", "", "1.2.3.4", true, ""⟩]
          (some "quota exceeded"),
        Event.Logout] :=
  ⟨ApplyChanges_fail_fast exampleLib ["example.com", "example.org"]
      (providerTwoZones sessionFailSecond) [] batchDeleteWww "example.com"
      [⟨"42", "www", "A", "", "1.2.3.4", true, ""⟩] "quota exceeded" (by decide),
    by decide⟩

/-! ## A failed record read -/

theorem convert_nil (recs : Option (List DnsRecord)) (z : String) (del : Bool) :
    convertToNetcupRecord recs [] z del = some [] := rfl

theorem convert_nil_recs (z : String) (del : Bool) (ep : Endpoint) (eps : List Endpoint) :
    convertToNetcupRecord none (ep :: eps) z del = none := by
  have h : convertEndpoint none z del ep = none := by
    unfold convertEndpoint
    cases ep.Targets <;> simp [getIDforRecord]
  simp [convertToNetcupRecord, h]

/-- When the read of a zone returns no record list, the loop body panics
right after the read as soon as the batch of the zone holds an endpoint. -/
theorem applyZone_nil_recs_panics (s : NetcupSession) (z : String) (c : Changes)
    (hist : List Event) (h : (s.InfoDnsRecords hist z).recs = none)
    (hne : c.Create ≠ [] ∨ c.UpdateOld ≠ [] ∨ c.UpdateNew ≠ [] ∨ c.Delete ≠ []) :
    applyZone s z c hist =
      (Result.panic, hist ++ [Event.InfoDnsRecords z (s.InfoDnsRecords hist z)]) := by
  obtain ⟨cr, uo, un, de⟩ := c
  unfold applyZone
  simp only [h]
  cases cr with
  | cons a l => simp [convert_nil_recs]
  | nil =>
    cases un with
    | cons a l => simp [convert_nil_recs, convert_nil]
    | nil =>
      cases uo with
      | cons a l => simp [convert_nil_recs, convert_nil]
      | nil =>
        cases de with
        | cons a l => simp [convert_nil_recs, convert_nil]
        | nil => simp at hne

/-- C8 (the code at the failing input): the read of `example.com` returns an
error and no record list while the batch creates `www.example.com`;
`ApplyChanges` panics right after the read, no record is translated and no
submission is made. -/
theorem ApplyChanges_read_failure_panics :
    (ApplyChanges exampleLib ["example.com"] (providerFor sessionReadFails 0) []
        batchCreateWww).result = Result.panic ∧
    (ApplyChanges exampleLib ["example.com"] (providerFor sessionReadFails 0) []
        batchCreateWww).events =
      [Event.InfoDnsRecords "example.com" ⟨none, some "connection refused", none⟩,
        Event.Logout] := by
  decide

/-! ## Records -/

/-- C9 (the code at the failing input): the record listing of `example.com`
returns the "no records" signal (an error, status `error`, code 5029, no
record list); `Records` panics right after the listing instead of returning
no endpoint for the zone. -/
theorem Records_no_records_signal_panics :
    noRecordsSignal (some ⟨"error", 5029⟩) = true ∧
    (Records exampleLib (providerFor sessionNoRecords 0) []).result = Result.panic ∧
    (Records exampleLib (providerFor sessionNoRecords 0) []).events =
      [Event.InfoDnsZone "example.com" ⟨some ⟨"300"⟩, none⟩,
        Event.InfoDnsRecords "example.com" ⟨none, some "no records", some ⟨"error", 5029⟩⟩,
        Event.Logout] := by
  decide

/-! ## Dry run -/

/-- C10 (as stated, refuted): with the non-zero dry-run flag `-1` both
`ApplyChanges` and `Records` contact the provider. -/
theorem dryRun_negative_contacts_provider :
    (providerFor sessionOk (-1)).dryRun ≠ 0 ∧
    (ApplyChanges exampleLib ["example.com"] (providerFor sessionOk (-1)) []
        batchCreateWww).events =
      [Event.InfoDnsRecords "example.com" ⟨some [recWww42], none, none⟩,
        Event.UpdateDnsRecords "example.com" [] none,
        Event.UpdateDnsRecords "example.com" [] none,
        Event.UpdateDnsRecords "example.com" [⟨"42", "www", "A", "", "1.2.3.4", false, ""⟩] none,
        Event.UpdateDnsRecords "example.com" [] none,
        Event.Logout] ∧
    (Records exampleLib (providerFor sessionOk (-1)) []).events =
      [Event.InfoDnsZone "example.com" ⟨some ⟨"300"⟩, none⟩,
        Event.InfoDnsRecords "example.com" ⟨some [recWww42], none, none⟩,
        Event.Logout] := by
  decide

/-- C10 (amended): for every positive value of the dry-run flag,
`ApplyChanges` makes no provider call and returns success, `Records` makes
no provider call and returns the value of `allEndpoints`, which is empty
before any apply and is what the last `ApplyChanges` left afterwards. -/
theorem dryRun_positive_no_provider_call (lib : Lib) (order : List String) (p : WrdProvider)
    (all : List Endpoint) (changes : Changes) (h : p.dryRun > 0) :
    (ApplyChanges lib order p all changes).events = [] ∧
    (ApplyChanges lib order p all changes).result = Result.ok () ∧
    (Records lib p all).events = [] ∧
    (Records lib p all).result = Result.ok all ∧
    (Records lib p initialAllEndpoints).result = Result.ok [] ∧
    (Records lib p (ApplyChanges lib order p all changes).allEndpoints).result
      = Result.ok (ApplyChanges lib order p all changes).allEndpoints := by
  obtain ⟨pz, h1, _, _⟩ := perZoneChanges_spec p.domainFilter changes
  have hR : ∀ l : List Endpoint, Records lib p l = ⟨Result.ok l, []⟩ := by
    intro l; simp [Records, h]
  refine ⟨?_, ?_, by rw [hR], by rw [hR], by rw [hR]; rfl, by rw [hR]⟩
  · by_cases hch : lib.HasChanges changes = false
    · simp [ApplyChanges, hch]
    · simp [ApplyChanges, hch, h1, h]
  · by_cases hch : lib.HasChanges changes = false
    · simp [ApplyChanges, hch]
    · simp [ApplyChanges, hch, h1, h]

/-- The amended C10 at the dry-run flag `1`: a dry-run apply that creates
`www.example.com` contacts nobody, and the following `Records` returns the
planned endpoint. -/
theorem dryRun_positive_no_provider_call_witness :
    ((ApplyChanges exampleLib ["example.com"] (providerFor sessionOk 1) [] batchCreateWww).events
        = [] ∧
      (ApplyChanges exampleLib ["example.com"] (providerFor sessionOk 1) [] batchCreateWww).result
        = Result.ok () ∧
      (Records exampleLib (providerFor sessionOk 1) []).events = [] ∧
      (Records exampleLib (providerFor sessionOk 1) []).result = Result.ok [] ∧
      (Records exampleLib (providerFor sessionOk 1) initialAllEndpoints).result = Result.ok [] ∧
      (Records exampleLib (providerFor sessionOk 1)
          (ApplyChanges exampleLib ["example.com"] (providerFor sessionOk 1) []
            batchCreateWww).allEndpoints).result
        = Result.ok (ApplyChanges exampleLib ["example.com"] (providerFor sessionOk 1) []
            batchCreateWww).allEndpoints) ∧
    (ApplyChanges exampleLib ["example.com"] (providerFor sessionOk 1) []
        batchCreateWww).allEndpoints = [epWww] :=
  ⟨dryRun_positive_no_provider_call exampleLib ["example.com"] (providerFor sessionOk 1) []
      batchCreateWww (by decide),
    by decide⟩

/-! ## A batch without changes -/

/-- C11: for a batch for which `HasChanges()` is false (the batch whose four
categories are empty), `ApplyChanges` returns success at once, makes no
provider call and leaves `allEndpoints` untouched, in dry run or not, with
or without a session. -/
theorem ApplyChanges_no_changes (lib : Lib) (order : List String) (p : WrdProvider)
    (all : List Endpoint) (changes : Changes) (h : lib.HasChanges changes = false) :
    (ApplyChanges lib order p all changes).result = Result.ok () ∧
    (ApplyChanges lib order p all changes).events = [] ∧
    (ApplyChanges lib order p all changes).allEndpoints = all := by
  simp [ApplyChanges, h]

/-- C11 at the batch whose four categories are empty, outside dry run. -/
theorem ApplyChanges_no_changes_witness :
    exampleLib.HasChanges emptyChanges = false ∧
    (ApplyChanges exampleLib ["example.com"] (providerFor sessionOk 0) [epWww]
        emptyChanges).result = Result.ok () ∧
    (ApplyChanges exampleLib ["example.com"] (providerFor sessionOk 0) [epWww]
        emptyChanges).events = [] ∧
    (ApplyChanges exampleLib ["example.com"] (providerFor sessionOk 0) [epWww]
        emptyChanges).allEndpoints = [epWww] :=
  ⟨by decide,
    ApplyChanges_no_changes exampleLib ["example.com"] (providerFor sessionOk 0) [epWww]
      emptyChanges (by decide)⟩

/-! ## Record translator: destination and apex -/

theorem hasSuffix_dot_self (z : String) : HasSuffix z ("." ++ z) = false := by
  unfold HasSuffix len
  have hl : ("." ++ z).data.length = z.data.length + 1 := by
    rw [String.data_append]
    simp [Nat.add_comm]
  simp [hl]

theorem recordName_self (z : String) : recordName z z = "@" := by
  simp [recordName, trimSuffix_of_not_hasSuffix z ("." ++ z) (hasSuffix_dot_self z)]

/-- C13: given the existing records and endpoints that all have a target,
the translation returns one record per endpoint, in order, and the
destination of a record is the first target of its endpoint, unmodified,
whenever the record type is not TXT or that target does not begin with
`"heritage=` (opening quote included). -/
theorem convertToNetcupRecord_plain_destination (existing : List DnsRecord)
    (eps : List Endpoint) (zone : String) (del : Bool) (hT : ∀ ep ∈ eps, ep.Targets ≠ []) :
    ∃ rs, convertToNetcupRecord (some existing) eps zone del = some rs ∧
      List.Forall₂ (fun ep r =>
        ∀ t ts, ep.Targets = t :: ts →
          (ep.RecordType ≠ RecordTypeTXT ∨ HasPrefix t "\"heritage=" = false) →
          r.Destination = t) eps rs := by
  obtain ⟨rs, hrs⟩ := convert_total existing zone del eps hT
  refine ⟨rs, hrs, ?_⟩
  refine (convert_forall₂ _ zone del eps rs hrs).imp ?_
  intro ep r ⟨_, hconv⟩ t ts ht hplain
  obtain ⟨t', ts', ht', hr⟩ := convertEndpoint_some existing zone del ep r hconv
  rw [ht] at ht'
  simp only [List.cons.injEq] at ht'
  subst hr
  rw [← ht'.1]
  simp only [recordTarget]
  rcases hplain with h | h
  · simp [h]
  · simp [h]

/-- C13 at an A endpoint and at a quoted TXT endpoint that is not a heritage
target: both destinations are the targets as given. -/
theorem convertToNetcupRecord_plain_destination_witness :
    (∃ rs, convertToNetcupRecord (some []) [epWww, epTxtPlain] "example.com" false = some rs ∧
      List.Forall₂ (fun ep r =>
        ∀ t ts, ep.Targets = t :: ts →
          (ep.RecordType ≠ RecordTypeTXT ∨ HasPrefix t "\"heritage=" = false) →
          r.Destination = t) [epWww, epTxtPlain] rs) ∧
    convertToNetcupRecord (some []) [epWww, epTxtPlain] "example.com" false =
      some [⟨"", "www", "A", "", "1.2.3.4", false, ""⟩,
        ⟨"", "www", "TXT", "", "\"v=spf1 -all\"", false, ""⟩] :=
  ⟨convertToNetcupRecord_plain_destination [] [epWww, epTxtPlain] "example.com" false
      (by decide),
    by decide⟩

/-- C14: given the existing records and endpoints that all have a target,
the translation returns one record per endpoint, in order, and the hostname
of a record is `"@"` whenever the name of its endpoint equals the zone name
exactly. -/
theorem convertToNetcupRecord_apex (existing : List DnsRecord) (eps : List Endpoint)
    (zone : String) (del : Bool) (hT : ∀ ep ∈ eps, ep.Targets ≠ []) :
    ∃ rs, convertToNetcupRecord (some existing) eps zone del = some rs ∧
      List.Forall₂ (fun ep r => ep.DNSName = zone → r.Hostname = "@") eps rs := by
  obtain ⟨rs, hrs⟩ := convert_total existing zone del eps hT
  refine ⟨rs, hrs, ?_⟩
  refine (convert_forall₂ _ zone del eps rs hrs).imp ?_
  intro ep r ⟨_, hconv⟩ hname
  obtain ⟨t, ts, _, hr⟩ := convertEndpoint_some existing zone del ep r hconv
  subst hr
  simp only [hname]
  exact recordName_self zone

/-- C14 at the endpoint `example.com` of the zone `example.com`. -/
theorem convertToNetcupRecord_apex_witness :
    (∃ rs, convertToNetcupRecord (some []) [epApex] "example.com" false = some rs ∧
      List.Forall₂ (fun ep r => ep.DNSName = "example.com" → r.Hostname = "@") [epApex] rs) ∧
    convertToNetcupRecord (some []) [epApex] "example.com" false =
      some [⟨"", "@", "A", "", "1.2.3.4", false, ""⟩] :=
  ⟨convertToNetcupRecord_apex [] [epApex] "example.com" false (by decide), by decide⟩

/-! ## Zone matcher: order of the allow-list -/

theorem endpointZoneName_le_of_subset (n : Endpoint) (Z1 Z2 : List String)
    (h : ∀ z, z ∈ Z1 → z ∈ Z2) : len (endpointZoneName n Z1) ≤ len (endpointZoneName n Z2) := by
  rcases endpointZoneName_cases n Z1 with h1 | h1
  · rw [h1]; exact Nat.zero_le _
  · exact (zoneLoop_spec n.DNSName Z2 "").2.2 _ (h _ h1.1) h1.2

/-- C19: `endpointZoneName` gives the same result on two zone lists that are
permutations of each other (duplicates allowed). -/
theorem endpointZoneName_perm (n : Endpoint) (Z1 Z2 : List String) (h : List.Perm Z1 Z2) :
    endpointZoneName n Z1 = endpointZoneName n Z2 := by
  apply suffix_same_len n.DNSName _ _ (endpointZoneName_suffix n Z1)
    (endpointZoneName_suffix n Z2)
  apply le_antisymm
  · exact endpointZoneName_le_of_subset n Z1 Z2 (fun z hz => h.subset hz)
  · exact endpointZoneName_le_of_subset n Z2 Z1 (fun z hz => h.symm.subset hz)

/-- C19 at a three-zone allow-list with a duplicate and one of its
permutations. -/
theorem endpointZoneName_perm_witness :
    endpointZoneName epWww ["com", "example.com", "com", "x.org"]
      = endpointZoneName epWww ["x.org", "com", "com", "example.com"] ∧
    endpointZoneName epWww ["com", "example.com", "com", "x.org"] = "example.com" :=
  ⟨endpointZoneName_perm epWww ["com", "example.com", "com", "x.org"]
      ["x.org", "com", "com", "example.com"] (by decide),
    by decide⟩

/-! ## The planned snapshot -/

/-- C20: after `ApplyChanges` on a batch with changes, whatever the mode,
the session and the outcome of the call, the package variable `allEndpoints`
is the sequence of the Create endpoints of the batch whose zone name is not
empty (it is then an allow-listed zone), in input order, whatever the
previous value and the other three categories; in dry run `Records` returns
exactly that sequence. -/
theorem ApplyChanges_snapshot (lib : Lib) (order : List String) (p : WrdProvider)
    (all : List Endpoint) (changes : Changes) (h : lib.HasChanges changes = true) :
    (ApplyChanges lib order p all changes).allEndpoints
      = changes.Create.filter (fun ep => decide (endpointZoneName ep p.domainFilter ≠ "")) ∧
    (∀ ep ∈ (ApplyChanges lib order p all changes).allEndpoints,
      ep ∈ changes.Create ∧ endpointZoneName ep p.domainFilter ∈ p.domainFilter) ∧
    (p.dryRun > 0 →
      (Records lib p (ApplyChanges lib order p all changes).allEndpoints).result
        = Result.ok (changes.Create.filter
            (fun ep => decide (endpointZoneName ep p.domainFilter ≠ "")))) := by
  obtain ⟨pz, h1, _, _⟩ := perZoneChanges_spec p.domainFilter changes
  have hall : (ApplyChanges lib order p all changes).allEndpoints
      = changes.Create.filter (fun ep => decide (endpointZoneName ep p.domainFilter ≠ "")) := by
    unfold ApplyChanges
    simp only [h, h1]
    by_cases hd : p.dryRun > 0
    · simp [hd]
    · cases hs : p.session <;> simp [hd]
  refine ⟨hall, ?_, ?_⟩
  · rw [hall]
    intro ep hep
    simp only [List.mem_filter, decide_eq_true_eq] at hep
    exact ⟨hep.1, endpointZoneName_mem ep p.domainFilter hep.2⟩
  · intro hd
    rw [hall]
    simp [Records, hd]

/-- C20 at a batch with a matched and an unmatched Create endpoint and
endpoints in the other categories, applied over a previous snapshot: the new
snapshot is the matched Create endpoint alone. -/
theorem ApplyChanges_snapshot_witness :
    ((ApplyChanges exampleLib ["example.com"] (providerFor sessionOk 1) [epApex]
          batchMixed).allEndpoints
        = batchMixed.Create.filter
            (fun ep => decide (endpointZoneName ep (providerFor sessionOk 1).domainFilter ≠ "")) ∧
      (∀ ep ∈ (ApplyChanges exampleLib ["example.com"] (providerFor sessionOk 1) [epApex]
          batchMixed).allEndpoints,
        ep ∈ batchMixed.Create ∧
          endpointZoneName ep (providerFor sessionOk 1).domainFilter
            ∈ (providerFor sessionOk 1).domainFilter) ∧
      ((providerFor sessionOk 1).dryRun > 0 →
        (Records exampleLib (providerFor sessionOk 1)
            (ApplyChanges exampleLib ["example.com"] (providerFor sessionOk 1) [epApex]
              batchMixed).allEndpoints).result
          = Result.ok (batchMixed.Create.filter
              (fun ep =>
                decide (endpointZoneName ep (providerFor sessionOk 1).domainFilter ≠ ""))))) ∧
    (ApplyChanges exampleLib ["example.com"] (providerFor sessionOk 1) [epApex]
        batchMixed).allEndpoints = [epWww] ∧
    (ApplyChanges exampleLib ["example.com"] (providerFor sessionOk 0) [epApex]
        batchMixed).allEndpoints = [epWww] :=
  ⟨ApplyChanges_snapshot exampleLib ["example.com"] (providerFor sessionOk 1) [epApex]
      batchMixed (by decide),
    by decide, by decide⟩

/-! ## Record translator: the heritage target -/

theorem head?_dropWhile_false (p : Char → Bool) (l : List Char) :
    ∀ c, (l.dropWhile p).head? = some c → p c = false := by
  induction l with
  | nil => intro c h; simp at h
  | cons a l ih =>
    intro c h
    cases hp : p a with
    | true =>
      rw [List.dropWhile_cons_of_pos hp] at h
      exact ih c h
    | false =>
      rw [List.dropWhile_cons_of_neg (by simp [hp])] at h
      simp only [List.head?_cons, Option.some.injEq] at h
      rw [← h]; exact hp

theorem takeWhile_all (p : Char → Bool) (l : List Char) : ∀ c ∈ l.takeWhile p, p c = true := by
  induction l with
  | nil => intro c h; simp at h
  | cons a l ih =>
    intro c h
    cases hp : p a with
    | true =>
      rw [List.takeWhile_cons_of_pos hp] at h
      rcases List.mem_cons.mp h with rfl | h
      · exact hp
      · exact ih c h
    | false =>
      rw [List.takeWhile_cons_of_neg (by simp [hp])] at h
      simp at h

/-- What `dropWhileEnd` removes and what it leaves. -/
theorem dropWhileEnd_spec (p : Char → Bool) (m : List Char) :
    ∃ trail, m = dropWhileEnd p m ++ trail ∧ (∀ c ∈ trail, p c = true) ∧
      ∀ c, (dropWhileEnd p m).getLast? = some c → p c = false := by
  refine ⟨(m.reverse.takeWhile p).reverse, ?_, ?_, ?_⟩
  · have h := List.takeWhile_append_dropWhile p m.reverse
    have h2 := congrArg List.reverse h
    rw [List.reverse_append, List.reverse_reverse] at h2
    exact h2.symm
  · intro c hc
    exact takeWhile_all p m.reverse c (List.mem_reverse.mp hc)
  · intro c hc
    unfold dropWhileEnd at hc
    rw [List.getLast?_reverse] at hc
    exact head?_dropWhile_false p m.reverse c hc

/-- What `Trim` removes and what it leaves: the characters of the cutset at
both ends, and only those. -/
theorem trim_spec (s cutset : String) :
    ∃ lead trail, s.data = lead ++ (Trim s cutset).data ++ trail ∧
      (∀ c ∈ lead, cutset.data.contains c = true) ∧
      (∀ c ∈ trail, cutset.data.contains c = true) ∧
      (∀ c, (Trim s cutset).data.head? = some c → cutset.data.contains c = false) ∧
      (∀ c, (Trim s cutset).data.getLast? = some c → cutset.data.contains c = false) := by
  obtain ⟨trail, h1, h2, h3⟩ :=
    dropWhileEnd_spec (fun c => cutset.data.contains c)
      (s.data.dropWhile (fun c => cutset.data.contains c))
  refine ⟨s.data.takeWhile (fun c => cutset.data.contains c), trail, ?_, ?_, h2, ?_, h3⟩
  · simp only [Trim]
    rw [List.append_assoc, ← h1]
    exact (List.takeWhile_append_dropWhile _ _).symm
  · exact takeWhile_all _ _
  · intro c hc
    simp only [Trim] at hc
    apply head?_dropWhile_false (fun c => cutset.data.contains c) s.data c
    rw [h1]
    cases hd : dropWhileEnd (fun c => cutset.data.contains c)
        (s.data.dropWhile (fun c => cutset.data.contains c)) with
    | nil => rw [hd] at hc; simp at hc
    | cons a l => rw [hd] at hc; simpa using hc

theorem contains_quote (c : Char) : ("\"".data.contains c = true) ↔ c = quoteChar := by
  have h : "\"".data = [quoteChar] := by decide
  rw [h]
  simp

/-- C12 (as stated, refuted): the TXT endpoint with the heritage target
`"heritage=external-dns,owner="me",kind=a"` is translated to a destination
that still holds quote characters. -/
theorem heritage_destination_keeps_inner_quotes :
    epHeritageInner.RecordType = RecordTypeTXT ∧
    HasPrefix "\"heritage=external-dns,owner=\"me\",kind=a\"" "\"heritage=" = true ∧
    convertToNetcupRecord (some []) [epHeritageInner] "example.com" false =
      some [⟨"", "www", "TXT", "", "heritage=external-dns,owner=\"me\",kind=a", false, ""⟩] ∧
    quoteChar ∈ ("heritage=external-dns,owner=\"me\",kind=a" : String).data := by
  decide

/-- C12 (amended): given the existing records and endpoints that all have a
target, the translation returns one record per endpoint, in order, and for a
TXT endpoint whose first target begins with `"heritage=` the destination is
that target without its leading and trailing quote characters: the target is
the destination between two runs of quote characters, and the destination
neither begins nor ends with a quote character. -/
theorem convertToNetcupRecord_heritage_destination (existing : List DnsRecord)
    (eps : List Endpoint) (zone : String) (del : Bool) (hT : ∀ ep ∈ eps, ep.Targets ≠ []) :
    ∃ rs, convertToNetcupRecord (some existing) eps zone del = some rs ∧
      List.Forall₂ (fun ep r =>
        ∀ t ts, ep.Targets = t :: ts → ep.RecordType = RecordTypeTXT →
          HasPrefix t "\"heritage=" = true →
          r.Destination = Trim t "\"" ∧
          ∃ lead trail, t.data = lead ++ r.Destination.data ++ trail ∧
            (∀ c ∈ lead, c = quoteChar) ∧ (∀ c ∈ trail, c = quoteChar) ∧
            r.Destination.data.head? ≠ some quoteChar ∧
            r.Destination.data.getLast? ≠ some quoteChar) eps rs := by
  obtain ⟨rs, hrs⟩ := convert_total existing zone del eps hT
  refine ⟨rs, hrs, ?_⟩
  refine (convert_forall₂ _ zone del eps rs hrs).imp ?_
  intro ep r ⟨_, hconv⟩ t ts ht htxt hpre
  obtain ⟨t', ts', ht', hr⟩ := convertEndpoint_some existing zone del ep r hconv
  rw [ht] at ht'
  simp only [List.cons.injEq] at ht'
  have hd : r.Destination = Trim t "\"" := by
    rw [hr, ← ht'.1]
    simp [recordTarget, htxt, hpre]
  refine ⟨hd, ?_⟩
  rw [hd]
  obtain ⟨lead, trail, h1, h2, h3, h4, h5⟩ := trim_spec t "\""
  refine ⟨lead, trail, h1, ?_, ?_, ?_, ?_⟩
  · intro c hc; exact (contains_quote c).mp (h2 c hc)
  · intro c hc; exact (contains_quote c).mp (h3 c hc)
  · intro hq
    have := h4 quoteChar hq
    rw [(contains_quote quoteChar).mpr rfl] at this
    cases this
  · intro hq
    have := h5 quoteChar hq
    rw [(contains_quote quoteChar).mpr rfl] at this
    cases this

/-- The amended C12 at a TXT endpoint with a quoted heritage target: the
destination is the target without the two enclosing quotes. -/
theorem convertToNetcupRecord_heritage_destination_witness :
    (∃ rs, convertToNetcupRecord (some []) [epHeritage] "example.com" false = some rs ∧
      List.Forall₂ (fun ep r =>
        ∀ t ts, ep.Targets = t :: ts → ep.RecordType = RecordTypeTXT →
          HasPrefix t "\"heritage=" = true →
          r.Destination = Trim t "\"" ∧
          ∃ lead trail, t.data = lead ++ r.Destination.data ++ trail ∧
            (∀ c ∈ lead, c = quoteChar) ∧ (∀ c ∈ trail, c = quoteChar) ∧
            r.Destination.data.head? ≠ some quoteChar ∧
            r.Destination.data.getLast? ≠ some quoteChar) [epHeritage] rs) ∧
    convertToNetcupRecord (some []) [epHeritage] "example.com" false =
      some [⟨"", "www", "TXT", "", "heritage=external-dns,external-dns/owner=default", false,
        ""⟩] :=
  ⟨convertToNetcupRecord_heritage_destination [] [epHeritage] "example.com" false (by decide),
    by decide⟩

/-! ## Export and translation of a hostname -/

theorem recordEndpoint_eq (lib : Lib) (domain : String) (ttl : Nat) (r : DnsRecord) :
    recordEndpoint lib domain ttl r =
      lib.NewEndpointWithTTL (recordDNSName domain r) r.Type_ (toTTL ttl) r.Destination := rfl

theorem trimSuffix_append (h suf : String) : TrimSuffix (h ++ suf) suf = h := by
  have hs : HasSuffix (h ++ suf) suf = true := by
    rw [hasSuffix_iff, String.data_append]
    exact List.suffix_append _ _
  apply String.ext
  simp [TrimSuffix, hs, len, String.data_append]

/-- The translation gives back the hostname of an exported record unless the
hostname is the zone name itself. -/
theorem recordName_recordDNSName (z : String) (r : DnsRecord)
    (h : r.Hostname ≠ z ∨ r.Hostname = "@") :
    recordName (recordDNSName z r) z = r.Hostname := by
  by_cases hat : r.Hostname = "@"
  · simp only [recordDNSName, hat, if_true]
    exact recordName_self z
  · have hne : r.Hostname ≠ z := by
      rcases h with h | h
      · exact h
      · exact absurd h hat
    simp only [recordDNSName, hat, if_false, recordName]
    rw [String.append_assoc, trimSuffix_append]
    simp [hne]

/-- C18 (the code at the failing input): the record of the zone
`example.com` with hostname `example.com` is exported under the name
`example.com.example.com`, and that name is translated back to the hostname
`"@"`; a Delete of the exported endpoint then resolves the id of the apex
record, not the id of the record it was read from. -/
theorem roundtrip_zone_named_hostname :
    recZoneNamed.Hostname = "example.com" ∧
    recordDNSName "example.com" recZoneNamed = "example.com.example.com" ∧
    recordName (recordDNSName "example.com" recZoneNamed) "example.com" = "@" ∧
    recordEndpoint exampleLib "example.com" 300 recZoneNamed =
      some ⟨"example.com.example.com", ["1.2.3.4"], "A", 300⟩ ∧
    convertToNetcupRecord (some [recApex1, recZoneNamed])
        (recordEndpoint exampleLib "example.com" 300 recZoneNamed).toList "example.com" true =
      some [⟨"1", "@", "A", "", "1.2.3.4", true, ""⟩] := by
  decide

/-! ## Records: the replies that make it fail -/

theorem recordsLoop_rejection (lib : Lib) (s : NetcupSession) :
    ∀ (zones : List String) (hist : List Event) (eps : List (Option Endpoint)),
      ∃ new, (recordsLoop lib s zones hist eps).2 = hist ++ new ∧
        ∀ ev ∈ new, ∀ msg, rejection ev = some msg →
          (recordsLoop lib s zones hist eps).1 = Result.error msg := by
  intro zones
  induction zones with
  | nil =>
    intro hist eps
    exact ⟨[], by simp [recordsLoop], by simp⟩
  | cons d rest ih =>
    intro hist eps
    unfold recordsLoop
    simp only
    cases herr : (s.InfoDnsZone hist d).err with
    | some err =>
      refine ⟨[Event.InfoDnsZone d (s.InfoDnsZone hist d)], rfl, ?_⟩
      intro ev hev msg hmsg
      rw [List.mem_singleton.mp hev] at hmsg
      simp only [rejection, herr, Option.some.injEq] at hmsg
      rw [← hmsg]
    | none =>
      simp only
      cases hzone : (s.InfoDnsZone hist d).zone with
      | none =>
        refine ⟨[Event.InfoDnsZone d (s.InfoDnsZone hist d)], rfl, ?_⟩
        intro ev hev msg hmsg
        rw [List.mem_singleton.mp hev] at hmsg
        simp [rejection, herr, hzone] at hmsg
      | some zone =>
        simp only
        cases hp : ParseUint zone.Ttl with
        | none =>
          refine ⟨[Event.InfoDnsZone d (s.InfoDnsZone hist d)], rfl, ?_⟩
          intro ev hev msg hmsg
          rw [List.mem_singleton.mp hev] at hmsg
          simp only [rejection, herr, hzone, hp, Option.some.injEq] at hmsg
          rw [← hmsg]
        | some ttl =>
          simp only
          have hZ : rejection (Event.InfoDnsZone d (s.InfoDnsZone hist d)) = none := by
            simp [rejection, herr, hzone, hp]
          generalize hrr : s.InfoDnsRecords (hist ++ [Event.InfoDnsZone d (s.InfoDnsZone hist d)]) d
            = rr
          have hterm : ∀ (res : Result (List (Option Endpoint))),
              (∀ msg, rejection (Event.InfoDnsRecords d rr) = some msg → res = Result.error msg) →
              ∃ new, hist ++ [Event.InfoDnsZone d (s.InfoDnsZone hist d)]
                  ++ [Event.InfoDnsRecords d rr] = hist ++ new ∧
                ∀ ev ∈ new, ∀ msg, rejection ev = some msg → res = Result.error msg := by
            intro res hres
            refine ⟨[Event.InfoDnsZone d (s.InfoDnsZone hist d), Event.InfoDnsRecords d rr],
              by simp, ?_⟩
            intro ev hev msg hmsg
            simp only [List.mem_cons, List.mem_singleton, List.not_mem_nil, or_false] at hev
            rcases hev with rfl | rfl
            · rw [hZ] at hmsg; cases hmsg
            · exact hres msg hmsg
          have hrec : ∀ recs : List DnsRecord, rejection (Event.InfoDnsRecords d rr) = none →
              ∃ new, (recordsLoop lib s rest
                  (hist ++ [Event.InfoDnsZone d (s.InfoDnsZone hist d)]
                    ++ [Event.InfoDnsRecords d rr])
                  (eps ++ recs.map (recordEndpoint lib d ttl))).2 = hist ++ new ∧
                ∀ ev ∈ new, ∀ msg, rejection ev = some msg →
                  (recordsLoop lib s rest
                    (hist ++ [Event.InfoDnsZone d (s.InfoDnsZone hist d)]
                      ++ [Event.InfoDnsRecords d rr])
                    (eps ++ recs.map (recordEndpoint lib d ttl))).1 = Result.error msg := by
            intro recs hR
            obtain ⟨new', h1, h2⟩ := ih (hist ++ [Event.InfoDnsZone d (s.InfoDnsZone hist d)]
              ++ [Event.InfoDnsRecords d rr]) (eps ++ recs.map (recordEndpoint lib d ttl))
            refine ⟨[Event.InfoDnsZone d (s.InfoDnsZone hist d), Event.InfoDnsRecords d rr]
              ++ new', by rw [h1]; simp, ?_⟩
            intro ev hev msg hmsg
            simp only [List.cons_append, List.nil_append, List.mem_cons] at hev
            rcases hev with rfl | rfl | hev
            · rw [hZ] at hmsg; cases hmsg
            · rw [hR] at hmsg; cases hmsg
            · exact h2 ev hev msg hmsg
          cases hrerr : rr.err with
          | some err =>
            simp only
            cases hsig : noRecordsSignal rr.LastResponse with
            | true =>
              have hR : rejection (Event.InfoDnsRecords d rr) = none := by
                simp [rejection, hrerr, hsig]
              simp only [if_true]
              cases hrecs : rr.recs with
              | none => exact hterm _ (fun msg hmsg => by rw [hR] at hmsg; cases hmsg)
              | some recs => exact hrec recs hR
            | false =>
              simp only [Bool.false_eq_true, if_false]
              apply hterm
              intro msg hmsg
              simp only [rejection, hrerr, hsig, Bool.false_eq_true, if_false,
                Option.some.injEq] at hmsg
              rw [← hmsg]
          | none =>
            have hR : rejection (Event.InfoDnsRecords d rr) = none := by
              simp [rejection, hrerr]
            simp only
            cases hrecs : rr.recs with
            | none => exact hterm _ (fun msg hmsg => by rw [hR] at hmsg; cases hmsg)
            | some recs => exact hrec recs hR

theorem logEndpoints_map_some (l : List Endpoint) : logEndpoints (l.map some) = some l := by
  induction l with
  | nil => rfl
  | cons a l ih => simp [logEndpoints, ih]

theorem Records_cases (lib : Lib) (p : WrdProvider) (all : List Endpoint) :
    (Records lib p all).events = [] ∨
    ∃ s : NetcupSession, p.session = some s ∧ ¬ p.dryRun > 0 ∧
      (Records lib p all).events = (recordsLoop lib s p.domainFilter [] []).2 ++ [Event.Logout] ∧
      (∀ msg, (recordsLoop lib s p.domainFilter [] []).1 = Result.error msg →
        (Records lib p all).result = Result.error msg) ∧
      (∀ eps, (recordsLoop lib s p.domainFilter [] []).1 = Result.ok (eps.map some) →
        (Records lib p all).result = Result.ok eps) := by
  by_cases hd : p.dryRun > 0
  · left; simp [Records, hd]
  · cases hs : p.session with
    | none => left; simp [Records, hd, hs]
    | some s =>
      right
      refine ⟨s, rfl, hd, ?_, ?_, ?_⟩
      · simp only [Records, hd, hs, if_false]
        cases (recordsLoop lib s p.domainFilter [] []).1 with
        | ok endpoints => simp only; cases logEndpoints endpoints <;> rfl
        | error err => rfl
        | panic => rfl
      · intro msg hmsg
        simp only [Records, hd, hs, if_false, hmsg]
      · intro eps heps
        simp only [Records, hd, hs, if_false, heps, logEndpoints_map_some]

theorem Records_rejection (lib : Lib) (p : WrdProvider) (all : List Endpoint) (ev : Event)
    (msg : String) (hmem : ev ∈ (Records lib p all).events) (hmsg : rejection ev = some msg) :
    (Records lib p all).result = Result.error msg := by
  rcases Records_cases lib p all with h0 | ⟨s, _, _, hev, herr, _⟩
  · rw [h0] at hmem; simp at hmem
  · rw [hev] at hmem
    obtain ⟨new, hnew, hall⟩ := recordsLoop_rejection lib s p.domainFilter [] []
    rw [hnew, List.nil_append] at hmem
    rcases List.mem_append.mp hmem with h | h
    · exact herr msg (hall ev h msg hmsg)
    · rw [List.mem_singleton.mp h] at hmsg
      simp [rejection] at hmsg

theorem parseUint_none (t : String) (h : t.data = [] ∨ ∃ c ∈ t.data, c.isDigit = false) :
    ParseUint t = none := by
  unfold ParseUint
  rcases h with h | ⟨c, hc, hd⟩
  · simp [h]
  · have hall : t.data.all Char.isDigit = false := by
      rw [List.all_eq_false]
      exact ⟨c, hc, by simp [hd]⟩
    by_cases he : t.data = []
    · simp [he]
    · simp [he, hall]

/-- C16: when a zone-info call of a `Records` export returns an error, or
returns a TTL string that `ParseUint` refuses (in particular an empty string
or one with a character that is not a decimal digit), `Records` returns an
error, hence no endpoint, not even of the zones read before. -/
theorem Records_zone_info_failure (lib : Lib) (p : WrdProvider) (all : List Endpoint)
    (z : String) (reply : ZoneReply)
    (hmem : Event.InfoDnsZone z reply ∈ (Records lib p all).events) :
    (∀ err, reply.err = some err →
      (Records lib p all).result =
        Result.error ("unable to query DNS zone info for domain '" ++ z ++ "': " ++ err)) ∧
    (∀ zone, reply.err = none → reply.zone = some zone → ParseUint zone.Ttl = none →
      (Records lib p all).result =
        Result.error ("unexpected error: unable to convert '" ++ zone.Ttl ++ "' to uint64")) ∧
    (∀ zone, reply.err = none → reply.zone = some zone →
      (zone.Ttl.data = [] ∨ ∃ c ∈ zone.Ttl.data, c.isDigit = false) →
      (Records lib p all).result =
        Result.error ("unexpected error: unable to convert '" ++ zone.Ttl ++ "' to uint64")) := by
  have h2 : ∀ zone, reply.err = none → reply.zone = some zone → ParseUint zone.Ttl = none →
      (Records lib p all).result =
        Result.error ("unexpected error: unable to convert '" ++ zone.Ttl ++ "' to uint64") := by
    intro zone herr hzone hp
    apply Records_rejection lib p all _ _ hmem
    simp [rejection, herr, hzone, hp]
  refine ⟨?_, h2, ?_⟩
  · intro err herr
    apply Records_rejection lib p all _ _ hmem
    simp [rejection, herr]
  · intro zone herr hzone hbad
    exact h2 zone herr hzone (parseUint_none _ hbad)

/-- C16 at an export over two zones in which the zone-info call of the
second zone fails, and at one in which its TTL string is `5m`: `Records`
returns the error and none of the endpoints of the first zone. -/
theorem Records_zone_info_failure_witness :
    ((∀ err, (⟨none, some "timeout"⟩ : ZoneReply).err = some err →
        (Records exampleLib (providerTwoZones sessionZoneInfoFails) []).result =
          Result.error
            ("unable to query DNS zone info for domain '" ++ "example.org" ++ "': " ++ err)) ∧
      (∀ zone, (⟨none, some "timeout"⟩ : ZoneReply).err = none →
        (⟨none, some "timeout"⟩ : ZoneReply).zone = some zone → ParseUint zone.Ttl = none →
        (Records exampleLib (providerTwoZones sessionZoneInfoFails) []).result =
          Result.error ("unexpected error: unable to convert '" ++ zone.Ttl ++ "' to uint64")) ∧
      (∀ zone, (⟨none, some "timeout"⟩ : ZoneReply).err = none →
        (⟨none, some "timeout"⟩ : ZoneReply).zone = some zone →
        (zone.Ttl.data = [] ∨ ∃ c ∈ zone.Ttl.data, c.isDigit = false) →
        (Records exampleLib (providerTwoZones sessionZoneInfoFails) []).result =
          Result.error
            ("unexpected error: unable to convert '" ++ zone.Ttl ++ "' to uint64"))) ∧
    (Records exampleLib (providerTwoZones sessionZoneInfoFails) []).result =
      Result.error "unable to query DNS zone info for domain 'example.org': timeout" ∧
    (Records exampleLib (providerTwoZones sessionZoneInfoFails) []).events =
      [Event.InfoDnsZone "example.com" ⟨some ⟨"300"⟩, none⟩,
        Event.InfoDnsRecords "example.com" ⟨some [recWww42], none, none⟩,
        Event.InfoDnsZone "example.org" ⟨none, some "timeout"⟩, Event.Logout] ∧
    (Records exampleLib (providerTwoZones sessionBadTtl) []).result =
      Result.error "unexpected error: unable to convert '5m' to uint64" :=
  ⟨Records_zone_info_failure exampleLib (providerTwoZones sessionZoneInfoFails) []
      "example.org" ⟨none, some "timeout"⟩ (by decide),
    by decide, by decide, by decide⟩

theorem noRecordsSignal_iff (last : Option NetcupBaseResponseMessage) :
    noRecordsSignal last = true ↔
      ∃ r, last = some r ∧ r.Status = StatusError ∧ r.StatusCode = 5029 := by
  cases last with
  | none => simp [noRecordsSignal]
  | some r => simp [noRecordsSignal]

/-- C17: when a record listing of a `Records` export returns an error and
the structured response is not the "no records" signal (a response with
status `error` and code 5029), `Records` returns an error, hence no
endpoint, whatever the text of the error; the test of the signal reads the
status and the code of the response only. -/
theorem Records_listing_failure (lib : Lib) (p : WrdProvider) (all : List Endpoint)
    (z : String) (reply : RecordsReply) (err : String)
    (hmem : Event.InfoDnsRecords z reply ∈ (Records lib p all).events)
    (herr : reply.err = some err) (hsig : noRecordsSignal reply.LastResponse = false) :
    (Records lib p all).result =
      Result.error ("unable to get DNS records for domain '" ++ z ++ "': " ++ err) ∧
    (∀ last : Option NetcupBaseResponseMessage, noRecordsSignal last = true ↔
      ∃ r, last = some r ∧ r.Status = StatusError ∧ r.StatusCode = 5029) ∧
    StatusError = "error" := by
  refine ⟨?_, noRecordsSignal_iff, rfl⟩
  apply Records_rejection lib p all _ _ hmem
  simp [rejection, herr, hsig]

/-- C17 at an export over two zones in which the listing of the second zone
fails with the text `no records` and the code 4013: `Records` returns the
error and none of the endpoints of the first zone. -/
theorem Records_listing_failure_witness :
    ((Records exampleLib (providerTwoZones sessionListingFails) []).result =
        Result.error
          ("unable to get DNS records for domain '" ++ "example.org" ++ "': " ++ "no records") ∧
      (∀ last : Option NetcupBaseResponseMessage, noRecordsSignal last = true ↔
        ∃ r, last = some r ∧ r.Status = StatusError ∧ r.StatusCode = 5029) ∧
      StatusError = "error") ∧
    (Records exampleLib (providerTwoZones sessionListingFails) []).events =
      [Event.InfoDnsZone "example.com" ⟨some ⟨"300"⟩, none⟩,
        Event.InfoDnsRecords "example.com" ⟨some [recWww42], none, none⟩,
        Event.InfoDnsZone "example.org" ⟨some ⟨"300"⟩, none⟩,
        Event.InfoDnsRecords "example.org" ⟨none, some "no records", some ⟨"error", 4013⟩⟩,
        Event.Logout] :=
  ⟨Records_listing_failure exampleLib (providerTwoZones sessionListingFails) [] "example.org"
      ⟨none, some "no records", some ⟨"error", 4013⟩⟩ "no records" (by decide) rfl (by decide),
    by decide⟩

/-! ## Records: the successful export -/

theorem recordsLoop_ok (lib : Lib) (s : NetcupSession) :
    ∀ (zones : List String) (hist : List Event) (eps : List (Option Endpoint)),
      (∀ ev ∈ (recordsLoop lib s zones hist eps).2,
        Event.succeeded ev = true ∧ Event.ttlParses ev = true) →
      ∃ data : List (List Event × List (Option Endpoint)),
        recordsLoop lib s zones hist eps =
          (Result.ok (eps ++ (data.map Prod.snd).flatten),
            hist ++ (data.map Prod.fst).flatten) ∧
        List.Forall₂ (fun z d => ZoneExport lib z d.1 d.2) zones data := by
  intro zones
  induction zones with
  | nil =>
    intro hist eps _
    exact ⟨[], by simp [recordsLoop], List.Forall₂.nil⟩
  | cons d rest ih =>
    intro hist eps hok
    obtain ⟨new, hnew, _⟩ := recordsLoop_rejection lib s (d :: rest) hist eps
    unfold recordsLoop at hok hnew ⊢
    simp only at hok hnew ⊢
    generalize s.InfoDnsZone hist d = zr at hok hnew ⊢
    obtain ⟨zone?, zerr⟩ := zr
    cases zerr with
    | some err =>
      simp only at hok
      have := (hok (Event.InfoDnsZone d ⟨zone?, some err⟩) (by simp)).1
      simp [Event.succeeded] at this
    | none =>
      simp only at hok hnew ⊢
      cases zone? with
      | none =>
        simp only at hok
        have := (hok (Event.InfoDnsZone d ⟨none, none⟩) (by simp)).1
        simp [Event.succeeded] at this
      | some zone =>
        simp only at hok hnew ⊢
        cases hp : ParseUint zone.Ttl with
        | none =>
          simp only [hp] at hok
          have := (hok (Event.InfoDnsZone d ⟨some zone, none⟩) (by simp)).2
          simp [Event.ttlParses, hp] at this
        | some ttl =>
          simp only [hp] at hok hnew ⊢
          generalize s.InfoDnsRecords (hist ++ [Event.InfoDnsZone d ⟨some zone, none⟩]) d = rr
            at hok hnew ⊢
          obtain ⟨recs?, rerr, last⟩ := rr
          have hR : Event.InfoDnsRecords d ⟨recs?, rerr, last⟩ ∈ hist ++ new := by
            rw [← hnew]
            cases rerr with
            | some err =>
              simp only
              cases noRecordsSignal last with
              | true =>
                simp only [if_true]
                cases recs? with
                | none => simp
                | some recs =>
                  simp only
                  obtain ⟨n', hn', _⟩ := recordsLoop_rejection lib s rest
                    (hist ++ [Event.InfoDnsZone d ⟨some zone, none⟩] ++
                      [Event.InfoDnsRecords d ⟨some recs, some err, last⟩])
                    (eps ++ recs.map (recordEndpoint lib d ttl))
                  rw [hn']
                  simp
              | false => simp
            | none =>
              simp only
              cases recs? with
              | none => simp
              | some recs =>
                simp only
                obtain ⟨n', hn', _⟩ := recordsLoop_rejection lib s rest
                  (hist ++ [Event.InfoDnsZone d ⟨some zone, none⟩] ++
                    [Event.InfoDnsRecords d ⟨some recs, none, last⟩])
                  (eps ++ recs.map (recordEndpoint lib d ttl))
                rw [hn']
                simp
          rw [← hnew] at hR
          have hgood := (hok _ hR).1
          simp only [Event.succeeded, Bool.and_eq_true, Option.isNone_iff_eq_none,
            Option.isSome_iff_exists] at hgood
          obtain ⟨he, recs, hrecs⟩ := hgood
          subst he
          subst hrecs
          simp only at hok ⊢
          obtain ⟨data, hrun, hf⟩ := ih _ _ hok
          refine ⟨([Event.InfoDnsZone d ⟨some zone, none⟩,
            Event.InfoDnsRecords d ⟨some recs, none, last⟩],
            recs.map (recordEndpoint lib d ttl)) :: data, ?_, ?_⟩
          · rw [hrun]
            simp
          · exact List.Forall₂.cons ⟨zone, ttl, recs, last, rfl, hp, rfl⟩ hf


theorem Records_run (lib : Lib) (p : WrdProvider) (s : NetcupSession) (all : List Endpoint)
    (hs : p.session = some s) (hdry : p.dryRun ≤ 0) :
    (Records lib p all).events = (recordsLoop lib s p.domainFilter [] []).2 ++ [Event.Logout] ∧
    (∀ eps, (recordsLoop lib s p.domainFilter [] []).1 = Result.ok (eps.map some) →
      (Records lib p all).result = Result.ok eps) := by
  have hd : ¬ p.dryRun > 0 := not_lt.mpr hdry
  constructor
  · simp only [Records, hd, hs, if_false]
    cases (recordsLoop lib s p.domainFilter [] []).1 with
    | ok endpoints => simp only; cases logEndpoints endpoints <;> rfl
    | error err => rfl
    | panic => rfl
  · intro eps heps
    simp only [Records, hd, hs, if_false, heps, logEndpoints_map_some]

/-- When the constructor returns, for every listed record, an endpoint that
holds the arguments it was given, the endpoint pointers of an export are the
endpoints with the fields of `ZoneEndpoints`. -/
theorem zoneExport_fields (lib : Lib) (zones : List String)
    (data' : List (List Event × List (Option Endpoint)))
    (hf : List.Forall₂ (fun z d => ZoneExport lib z d.1 d.2) zones data')
    (hmk : ∀ z recs last, (∃ d ∈ data', Event.InfoDnsRecords z ⟨some recs, none, last⟩ ∈ d.1) →
      ∀ r ∈ recs, ∀ ttl : Int,
        lib.NewEndpointWithTTL (if r.Hostname = "@" then z else r.Hostname ++ "." ++ z)
            r.Type_ ttl r.Destination
          = some ⟨if r.Hostname = "@" then z else r.Hostname ++ "." ++ z, [r.Destination],
              r.Type_, ttl⟩) :
    ∃ data : List (List Event × List Endpoint),
      data.map Prod.fst = data'.map Prod.fst ∧
      (data'.map Prod.snd).flatten = ((data.map Prod.snd).flatten).map some ∧
      List.Forall₂ (fun z d => ZoneEndpoints z d.1 d.2) zones data := by
  induction hf with
  | nil => exact ⟨[], rfl, rfl, List.Forall₂.nil⟩
  | @cons z d' zs ds hzd _ ih =>
    obtain ⟨data, h1, h2, h3⟩ := ih (fun z recs last ⟨d, hd, hev⟩ =>
      hmk z recs last ⟨d, List.mem_cons_of_mem _ hd, hev⟩)
    obtain ⟨zone, ttl, recs, last, hb, hp, hpart⟩ := hzd
    have hctor := hmk z recs last ⟨d', List.mem_cons_self _ _, by rw [hb]; simp⟩
    have hsome : d'.2 = (recs.map (fun r =>
        (⟨if r.Hostname = "@" then z else r.Hostname ++ "." ++ z, [r.Destination], r.Type_,
          toTTL ttl⟩ : Endpoint))).map some := by
      rw [hpart, List.map_map]
      apply List.map_congr_left
      intro r hr
      exact hctor r hr (toTTL ttl)
    refine ⟨(d'.1, recs.map (fun r =>
        (⟨if r.Hostname = "@" then z else r.Hostname ++ "." ++ z, [r.Destination], r.Type_,
          toTTL ttl⟩ : Endpoint))) :: data, ?_, ?_, ?_⟩
    · simp [h1]
    · simp only [List.map_cons, List.flatten_cons, List.map_append]
      rw [h2, hsome]
    · exact List.Forall₂.cons ⟨zone, ttl, recs, last, hb, hp, rfl⟩ h3

/-- C15 (as stated, refuted): three exports in which every provider call
succeeds and the TTL parses.  With the TTL string `9223372036854775808` the
endpoint has the TTL `-9223372036854775808`, the parsed value converted to
the signed 64-bit type `endpoint.TTL`.  With a record whose hostname has 64
bytes the constructor returns nil and `Records` panics when it logs the
endpoints.  With the CNAME destination `target.example.net.` the target of
the endpoint is `target.example.net`. -/
theorem Records_export_refuted :
    ParseUint "9223372036854775808" = some 9223372036854775808 ∧
    (∀ ev ∈ (Records extDnsLib (providerFor sessionHugeTtl 0) []).events,
      Event.succeeded ev = true ∧ Event.ttlParses ev = true) ∧
    (Records extDnsLib (providerFor sessionHugeTtl 0) []).result =
      Result.ok [⟨"www.example.com", ["1.2.3.4"], "A", -9223372036854775808⟩] ∧
    (∀ ev ∈ (Records extDnsLib (providerFor sessionLongLabel 0) []).events,
      Event.succeeded ev = true ∧ Event.ttlParses ev = true) ∧
    (Records extDnsLib (providerFor sessionLongLabel 0) []).result = Result.panic ∧
    (∀ ev ∈ (Records extDnsLib (providerFor sessionDotTarget 0) []).events,
      Event.succeeded ev = true ∧ Event.ttlParses ev = true) ∧
    (Records extDnsLib (providerFor sessionDotTarget 0) []).result =
      Result.ok [⟨"www.example.com", ["target.example.net"], "CNAME", 300⟩] := by
  decide

/-- C15 (amended): when every provider call of a non-dry-run `Records`
export succeeds, the TTL string of every zone parses, and the constructor
`NewEndpointWithTTL` returns for every listed record an endpoint that holds
the name, type, TTL and target it was given, `Records` returns the
concatenation, over the allow-listed zones in list order, of one endpoint
per listed record in listing order (the calls being, zone after zone, the
zone info and the listing, then the deferred logout); the name of each
endpoint is `hostname + "." + zone` (the bare zone when the hostname is
`"@"`), its type and single target are the type and the destination of the
record, and its TTL is the parsed TTL of the owning zone converted to
`endpoint.TTL`, which is the parsed TTL itself when that is below two to the
power 63. -/
theorem Records_export (lib : Lib) (p : WrdProvider) (s : NetcupSession) (all : List Endpoint)
    (hs : p.session = some s) (hdry : p.dryRun ≤ 0)
    (hok : ∀ ev ∈ (Records lib p all).events,
      Event.succeeded ev = true ∧ Event.ttlParses ev = true)
    (hmk : ∀ z recs last,
      Event.InfoDnsRecords z ⟨some recs, none, last⟩ ∈ (Records lib p all).events →
      ∀ r ∈ recs, ∀ ttl : Int,
        lib.NewEndpointWithTTL (if r.Hostname = "@" then z else r.Hostname ++ "." ++ z)
            r.Type_ ttl r.Destination
          = some ⟨if r.Hostname = "@" then z else r.Hostname ++ "." ++ z, [r.Destination],
              r.Type_, ttl⟩) :
    (∃ data : List (List Event × List Endpoint),
      (Records lib p all).result = Result.ok (data.map Prod.snd).flatten ∧
      (Records lib p all).events = (data.map Prod.fst).flatten ++ [Event.Logout] ∧
      List.Forall₂ (fun z d => ZoneEndpoints z d.1 d.2) p.domainFilter data) ∧
    (∀ ttl : Nat, ttl < 2 ^ 63 → toTTL ttl = (ttl : Int)) := by
  obtain ⟨hev, hres⟩ := Records_run lib p s all hs hdry
  rw [hev] at hok hmk
  obtain ⟨data', hd, hf⟩ := recordsLoop_ok lib s p.domainFilter [] []
    (fun ev hev' => hok ev (List.mem_append_left _ hev'))
  have h2 : (recordsLoop lib s p.domainFilter [] []).2 = (data'.map Prod.fst).flatten := by
    rw [hd]; simp
  obtain ⟨data, e1, e2, e3⟩ := zoneExport_fields lib p.domainFilter data' hf (by
    intro z recs last ⟨d, hdm, hevd⟩
    apply hmk z recs last
    rw [h2]
    apply List.mem_append_left
    exact List.mem_flatten.mpr ⟨d.1, List.mem_map.mpr ⟨d, hdm, rfl⟩, hevd⟩)
  refine ⟨⟨data, ?_, ?_, e3⟩, ?_⟩
  · apply hres
    rw [hd, ← e2]
    simp
  · rw [hev, h2, e1]
  · intro ttl h
    unfold toTTL
    rw [if_pos h]

/-- The amended C15 at an export of the zone `example.com` with the TTL
`300` and the record `www A 1.2.3.4`, with the constructor that follows
external-dns. -/
theorem Records_export_witness :
    ((∃ data : List (List Event × List Endpoint),
        (Records extDnsLib (providerFor sessionOk 0) []).result
          = Result.ok (data.map Prod.snd).flatten ∧
        (Records extDnsLib (providerFor sessionOk 0) []).events
          = (data.map Prod.fst).flatten ++ [Event.Logout] ∧
        List.Forall₂ (fun z d => ZoneEndpoints z d.1 d.2)
          (providerFor sessionOk 0).domainFilter data) ∧
      (∀ ttl : Nat, ttl < 2 ^ 63 → toTTL ttl = (ttl : Int))) ∧
    (Records extDnsLib (providerFor sessionOk 0) []).result =
      Result.ok [⟨"www.example.com", ["1.2.3.4"], "A", 300⟩] :=
  ⟨Records_export extDnsLib (providerFor sessionOk 0) sessionOk [] rfl (by decide) (by decide)
      (by
        intro z recs last h r hr ttl
        have hev : (Records extDnsLib (providerFor sessionOk 0) []).events =
            [Event.InfoDnsZone "example.com" ⟨some ⟨"300"⟩, none⟩,
              Event.InfoDnsRecords "example.com" ⟨some [recWww42], none, none⟩,
              Event.Logout] := by decide
        rw [hev] at h
        simp only [List.mem_cons, List.mem_singleton, List.not_mem_nil, or_false,
          Event.InfoDnsRecords.injEq, RecordsReply.mk.injEq, Option.some.injEq, false_or,
          reduceCtorEq, and_true, true_and] at h
        obtain ⟨rfl, rfl, _⟩ := h
        rw [List.mem_singleton.mp hr]
        have hname : (if recWww42.Hostname = "@" then "example.com"
            else recWww42.Hostname ++ "." ++ "example.com") = "www.example.com" := by decide
        have hlabel : labelTooLong ("www.example.com" : String).data 0 = false := by decide
        have h1 : TrimSuffix "www.example.com" "." = "www.example.com" := by decide
        have h2 : TrimSuffix recWww42.Destination "." = recWww42.Destination := by decide
        simp [extDnsLib, hname, hlabel, h1, h2]),
    by decide⟩

end Wrd
